import Mathlib

/-!
# OAuth 1.0a request signing (`src/oauth/index.js`)

A shallow embedding of the signing module and the properties of its
pipeline: percent-encoding, parameter collection, canonical parameter string,
header formatting.

## Modelling conventions

* A JavaScript string is a Lean `String`: a sequence of Unicode scalar values.
  A string with an unpaired surrogate (on which `encodeURIComponent` throws
  `URIError`) has no counterpart in this type; the strings that come out of
  `new URL(...)` are always well formed.
* Where JavaScript compares strings (`Array.prototype.sort` without a
  comparator) it compares their UTF-16 code units; `utf16` gives them.
* A JavaScript object is an association list `Obj` of own enumerable
  properties; it is well formed when no key occurs twice. Property order is
  the order of first insertion. A write under a computed name on an ordinary
  object is `Obj.put`: the name `__proto__` creates no own property.
* Library functions of the platform that the module imports (`new URL`,
  `querystring.parse`, `crypto.createHmac`, `String.prototype.toUpperCase`)
  are fields of a `Runtime` the functions take as an argument. The built-in
  `encodeURIComponent` is written out after ECMA-262 (`Encode` with the
  unescaped set of `encodeURIComponent`).
* The clock and the random source the providers may read are a `World`.
* The `body` argument is a JavaScript value (`Body`) on which `typeof` and the
  class tag of `Object.prototype.toString` are computed; the credential is
  `undefined`, `null` or an object with the four fields (`Auth`), and a
  `Credential` written where an `Auth` is expected is that object.
* The module state `oAuthFunctions` is passed as an argument; a call that can
  assign to it (`setNonceFn`, `setTimestampFn`) returns the state it leaves, also
  when it throws.
-/

namespace OAuth

/-! ## Strings and percent-encoding -/

/-- Uppercase hexadecimal digit of `d % 16`. -/
def hexDigit (d : Nat) : Char :=
  match d % 16 with
  | 0 => '0' | 1 => '1' | 2 => '2' | 3 => '3'
  | 4 => '4' | 5 => '5' | 6 => '6' | 7 => '7'
  | 8 => '8' | 9 => '9' | 10 => 'A' | 11 => 'B'
  | 12 => 'C' | 13 => 'D' | 14 => 'E' | _ => 'F'

/-- The escape `%HH` of one octet, two uppercase hexadecimal digits. -/
def percent (b : Nat) : List Char :=
  ['%', hexDigit (b / 16), hexDigit b]

/-- UTF-8 octets of a code point. -/
def utf8Octets (n : Nat) : List Nat :=
  if n < 0x80 then [n]
  else if n < 0x800 then [0xC0 + n / 0x40, 0x80 + n % 0x40]
  else if n < 0x10000 then
    [0xE0 + n / 0x1000, 0x80 + n / 0x40 % 0x40, 0x80 + n % 0x40]
  else
    [0xF0 + n / 0x40000, 0x80 + n / 0x1000 % 0x40, 0x80 + n / 0x40 % 0x40,
      0x80 + n % 0x40]

/-- The apostrophe, U+0027. -/
def apostrophe : Char := Char.ofNat 0x27

/-- ECMA-262 `uriMark`: the punctuation `encodeURIComponent` leaves alone. -/
def uriMark : List Char :=
  ['-', '_', '.', '!', '~', '*', apostrophe, '(', ')']

/-- ASCII letter or decimal digit (ECMA-262 `uriAlpha` and `DecimalDigit`). -/
def uriAlphaNum (c : Char) : Bool :=
  (65 ≤ c.toNat && c.toNat ≤ 90) || (97 ≤ c.toNat && c.toNat ≤ 122) ||
    (48 ≤ c.toNat && c.toNat ≤ 57)

/-- ECMA-262 `uriUnescaped`, the unescaped set of `encodeURIComponent`. -/
def uriUnescaped (c : Char) : Bool :=
  uriAlphaNum c || uriMark.contains c

/-- One step of ECMA-262 `Encode`: an unescaped character is copied, any other
code point is replaced by the escapes of its UTF-8 octets. -/
def encodeChar (c : Char) : List Char :=
  if uriUnescaped c then [c] else (utf8Octets c.toNat).flatMap percent

/-- The built-in `encodeURIComponent` on a well-formed string. -/
def encodeURIComponent (str : String) : String :=
  ⟨str.data.flatMap encodeChar⟩

/-- `s.replace(/c/ug, r)` for a pattern that is the single literal character
`c`: every occurrence of `c` is replaced by `r`. -/
def replaceAll (c : Char) (r : String) (s : String) : String :=
  ⟨s.data.flatMap fun x => if x = c then r.data else [x]⟩

/-- `encode` (index.js, lines 5-10). -/
def encode (str : String) : String :=
  replaceAll apostrophe "%27"
    (replaceAll ')' "%29"
      (replaceAll '(' "%28"
        (replaceAll '*' "%2A"
          (replaceAll '!' "%21" (encodeURIComponent str)))))

/-- RFC 3986 `unreserved`: `ALPHA / DIGIT / "-" / "." / "_" / "~"`. -/
def unreserved (c : Char) : Bool :=
  uriAlphaNum c || c = '-' || c = '.' || c = '_' || c = '~'

/-- Reference encoding, after the words of the specification: an unreserved
character is kept, every other character becomes `%HH` for each of its UTF-8
octets. -/
def rfc3986Encode (s : String) : String :=
  ⟨s.data.flatMap fun c =>
    if unreserved c then [c] else (utf8Octets c.toNat).flatMap percent⟩

/-! ## Values, objects and sorting -/

/-- `Array.prototype.join` on an array of strings. -/
def join (sep : String) : List String → String
  | [] => ""
  | [a] => a
  | a :: b :: rest => a ++ sep ++ join sep (b :: rest)

/-- The values a parameter can hold: a string, `null`, an array of strings
(what `querystring.parse` gives for a repeated key), or a nested object, here a
mapping of strings. -/
inductive Val where
  | null
  | str (s : String)
  | arr (xs : List String)
  | object (entries : List (String × String))
  deriving DecidableEq

/-- JavaScript `ToString` of the result of a property read `o[k]`; an absent
property reads as `undefined`. -/
def toStr : Option Val → String
  | none => "undefined"
  | some .null => "null"
  | some (.str s) => s
  | some (.arr xs) => join "," xs
  | some (.object _) => "[object Object]"

/-- A JavaScript object: its own enumerable string-keyed properties. -/
structure Obj where
  entries : List (String × Val)
  deriving DecidableEq

namespace Obj

/-- The object literal `{}`. -/
def empty : Obj := ⟨[]⟩

/-- `Object.keys(o)`. -/
def keys (o : Obj) : List String := o.entries.map Prod.fst

/-- No key occurs twice: the list stands for a JavaScript object. -/
def WellFormed (o : Obj) : Prop := o.keys.Nodup

/-- Property read on an association list. -/
def getL : List (String × Val) → String → Option Val
  | [], _ => none
  | (k', v) :: t, k => if k' = k then some v else getL t k

/-- Property read `o[k]`; `none` when `k` is not a key of `o`. -/
def get (o : Obj) (k : String) : Option Val := getL o.entries k

/-- Property write on an association list: an existing key keeps its place. -/
def setL : List (String × Val) → String → Val → List (String × Val)
  | [], k, v => [(k, v)]
  | (k', v') :: t, k, v => if k' = k then (k, v) :: t else (k', v') :: setL t k v

/-- Property write `o[k] = v`. -/
def set (o : Obj) (k : String) (v : Val) : Obj := ⟨setL o.entries k v⟩

/-- Property write `o[k] = v` under a name that is not known in advance, on an
ordinary object (an object literal, which inherits from `Object.prototype`):
the name `__proto__` reaches the inherited setter and creates no own property
(the setter ignores a string and makes `null`, an array or an object the
prototype, which no line of the module reads); any other name is written as an
own property. -/
def put (o : Obj) (k : String) (v : Val) : Obj :=
  if k = "__proto__" then o else o.set k v

/-- `Object.assign(target, source)` on an ordinary `target`: every property of
`source` is written to `target`, in the order of `source`. -/
def assign (target source : Obj) : Obj :=
  source.entries.foldl (fun acc kv => acc.put kv.1 kv.2) target

end Obj

/-- UTF-16 code units of a code point. -/
def codeUnits (n : Nat) : List Nat :=
  if n < 0x10000 then [n]
  else [0xD800 + (n - 0x10000) / 0x400, 0xDC00 + (n - 0x10000) % 0x400]

/-- UTF-16 code units of a string: what JavaScript string comparison sees. -/
def utf16 (s : String) : List Nat := s.data.flatMap fun c => codeUnits c.toNat

/-- UTF-8 octets of a string. -/
def utf8 (s : String) : List Nat := s.data.flatMap fun c => utf8Octets c.toNat

/-- Lexicographic `≤` on sequences of numbers. -/
def lexLe : List Nat → List Nat → Bool
  | [], _ => true
  | _ :: _, [] => false
  | a :: as, b :: bs => a < b || (a == b && lexLe as bs)

/-- The order of `Array.prototype.sort()` without a comparator: strings are
compared by their UTF-16 code units. -/
def strLe (a b : String) : Prop := lexLe (utf16 a) (utf16 b) = true

instance strLe.decidable : DecidableRel strLe :=
  fun a b => inferInstanceAs (Decidable (lexLe (utf16 a) (utf16 b) = true))

/-- Strict version of `strLe`. -/
def strLt (a b : String) : Prop := strLe a b ∧ a ≠ b

/-- Byte-wise order: strings compared by their UTF-8 octets. -/
def bytesLe (a b : String) : Prop := lexLe (utf8 a) (utf8 b) = true

instance bytesLe.decidable : DecidableRel bytesLe :=
  fun a b => inferInstanceAs (Decidable (lexLe (utf8 a) (utf8 b) = true))

/-- `keys.sort()`. -/
def sort (keys : List String) : List String := keys.insertionSort strLe

/-- The test `key.indexOf(pre) === 0`: `key` starts with `pre`. -/
def startsWith (key pre : String) : Bool := pre.data.isPrefixOf key.data

/-! ## The platform -/

/-- The properties of a parsed `URL` object. `searchParams` lists the
name-value pairs of the query in their order, repeated names included. -/
structure URLObject where
  origin : String
  pathname : String
  search : String
  hash : String
  searchParams : List (String × String)
  deriving DecidableEq

/-- `URLSearchParams.prototype.get(name)`: the value of the first pair whose
name is `name`, `null` when there is none. -/
def searchParamsGet : List (String × String) → String → Val
  | [], _ => .null
  | (k, v) :: t, name => if k = name then .str v else searchParamsGet t name

/-- Library functions the module imports. -/
structure Runtime where
  /-- `new URL(url)`; `none` when the constructor throws. -/
  newURL : String → Option URLObject
  /-- `querystring.parse(str)`. -/
  qsParse : String → Obj
  /-- `crypto.createHmac('sha1', key).update(data).digest('base64')`. -/
  hmacSha1Base64 : (key : String) → (data : String) → String
  /-- `String.prototype.toUpperCase`. -/
  toUpperCase : String → String

/-- What the providers can observe: the clock (`Date.now()`) and the octets
the random source hands out. -/
structure World where
  now : Nat
  random : List Nat

/-- The module state `oAuthFunctions`: the nonce and timestamp providers. -/
structure OAuthFunctions where
  nonceFn : World → String
  timestampFn : World → String

/-- An argument passed to a setter: a function, or any other value. -/
inductive Arg where
  | function (f : World → String)
  | notFunction

/-- Errors thrown. -/
inductive Error where
  | typeError (message : String)
  deriving DecidableEq

/-- The credential `{consumer_key, consumer_secret, token, token_secret}`. -/
structure Credential where
  consumer_key : String
  consumer_secret : String
  token : String
  token_secret : String
  deriving DecidableEq

/-- The credential argument as a JavaScript value: `undefined` (as when the
third argument of `oauth` has no `oauth` property), `null`, or an object with
the four fields. -/
inductive Auth where
  | undefined
  | null
  | object (credential : Credential)
  deriving DecidableEq

/-- A credential passed where a JavaScript value is expected is the object. -/
instance Credential.toAuth : Coe Credential Auth := ⟨Auth.object⟩

/-- The `body` argument as a JavaScript value. The shapes that are neither a
string nor a plain object stand for all such values: each has a `typeof` other
than `string` and a class tag other than `[object Object]`. -/
inductive Body where
  | undefined
  | null
  | boolean (b : Bool)
  | number (n : Int)
  | string (s : String)
  | array (xs : List Val)
  | function
  | object (o : Obj)
  deriving DecidableEq

/-- The result of `typeof body`. -/
def Body.typeOf : Body → String
  | .undefined => "undefined"
  | .null => "object"
  | .boolean _ => "boolean"
  | .number _ => "number"
  | .string _ => "string"
  | .array _ => "object"
  | .function => "function"
  | .object _ => "object"

/-- The result of `Object.prototype.toString.call(body)`. -/
def Body.classOf : Body → String
  | .undefined => "[object Undefined]"
  | .null => "[object Null]"
  | .boolean _ => "[object Boolean]"
  | .number _ => "[object Number]"
  | .string _ => "[object String]"
  | .array _ => "[object Array]"
  | .function => "[object Function]"
  | .object _ => "[object Object]"

/-! ## The module -/

/-- `setNonceFn` (lines 17-23) as a step on the module state: what the call
does (it returns nothing, or throws) and the state it leaves. The `throw` comes
before the assignment. -/
def setNonceFn (fns : OAuthFunctions) (fn : Arg) : Except Error Unit × OAuthFunctions :=
  match fn with
  | .notFunction => (.error (.typeError "OAuth: setNonceFn expects a function"), fns)
  | .function f => (.ok (), { fns with nonceFn := f })

/-- `setTimestampFn` (lines 25-31) as a step on the module state. -/
def setTimestampFn (fns : OAuthFunctions) (fn : Arg) : Except Error Unit × OAuthFunctions :=
  match fn with
  | .notFunction => (.error (.typeError "OAuth: setTimestampFn expects a function"), fns)
  | .function f => (.ok (), { fns with timestampFn := f })

/-- Lines 36-39 of `parameters`: for every name the query lists, `params[key]`
is set to `searchParams.get(key)`. -/
def queryParams (searchParams : List (String × String)) : Obj :=
  (searchParams.map Prod.fst).foldl
    (fun params key => params.put key (searchParamsGet searchParams key)) Obj.empty

/-- Lines 33 and 41-48 of `parameters`: the default `{}` for an omitted body
(line 33), `qs.parse` when `typeof body` is `string` (lines 41-43), and the
test of the class tag against `[object Object]` (lines 46-48). What comes out
is the object whose properties line 50 copies. -/
def bodyObject (rt : Runtime) (body : Body) : Except Error Obj :=
  let body := match body with
    | .undefined => Body.object Obj.empty
    | given => given
  let body := if body.typeOf = "string" then
      match body with
      | .string s => Body.object (rt.qsParse s)
      | other => other
    else body
  if body.classOf ≠ "[object Object]" then
    .error (.typeError "OAuth: body parameters must be string or object")
  else
    match body with
    | .object o => .ok o
    | _ => .ok Obj.empty

/-- Lines 52-57 of `parameters`: the six protocol parameters are written. -/
def setProtocol (fns : OAuthFunctions) (w : World) (auth : Credential) (params : Obj) : Obj :=
  (((((params.set "oauth_consumer_key" (.str auth.consumer_key)).set
    "oauth_token" (.str auth.token)).set
    "oauth_nonce" (.str (fns.nonceFn w))).set
    "oauth_timestamp" (.str (fns.timestampFn w))).set
    "oauth_signature_method" (.str "HMAC-SHA1")).set
    "oauth_version" (.str "1.0")

/-- `parameters` (lines 33-60). Reading `auth.consumer_key` on line 52 throws
when `auth` is `undefined` or `null`. -/
def parameters (rt : Runtime) (fns : OAuthFunctions) (w : World)
    (url : String) (auth : Auth) (body : Body) : Except Error Obj :=
  match rt.newURL url with
  | none => .error (.typeError "Invalid URL")
  | some urlObject =>
    match bodyObject rt body with
    | .error e => .error e
    | .ok b =>
      let params := (queryParams urlObject.searchParams).assign b
      match auth with
      | .undefined =>
        .error (.typeError "Cannot read properties of undefined (reading 'consumer_key')")
      | .null =>
        .error (.typeError "Cannot read properties of null (reading 'consumer_key')")
      | .object credential => .ok (setProtocol fns w credential params)

/-- `parameterString` (lines 62-71). -/
def parameterString (_url : String) (_auth : Auth) (params : Obj) : String :=
  let sortedKeys := sort params.keys
  let sortedParams := sortedKeys.foldl
    (fun sortedParams key => sortedParams ++ [key ++ "=" ++ encode (toStr (params.get key))]) []
  join "&" sortedParams

/-- `hmacSha1Signature` (lines 73-76). -/
def hmacSha1Signature (rt : Runtime) (baseString signingKey : String) : String :=
  rt.hmacSha1Base64 signingKey baseString

/-- `signatureBaseString` (lines 78-82). -/
def signatureBaseString (rt : Runtime) (url method paramString : String) :
    Except Error String :=
  match rt.newURL url with
  | none => .error (.typeError "Invalid URL")
  | some urlObject =>
    let baseURL := urlObject.origin ++ urlObject.pathname
    .ok (rt.toUpperCase method ++ "&" ++ encode baseURL ++ "&" ++ encode paramString)

/-- `createSigningKey` (line 84), on the object its parameter destructures. -/
def createSigningKey (auth : Credential) : String :=
  encode auth.consumer_secret ++ "&" ++ encode auth.token_secret

/-- `header` (lines 86-102): the header string, and the parameter set as the
call leaves it (the argument is mutated on line 87). -/
def header (_url : String) (_auth : Auth) (signature : String) (params : Obj) :
    String × Obj :=
  let params := params.set "oauth_signature" (.str signature)
  let sortedKeys := sort params.keys
  let sortedParams := sortedKeys.foldl
    (fun sortedParams key =>
      if startsWith key "oauth_" then
        sortedParams ++ [key ++ "=\"" ++ encode (toStr (params.get key)) ++ "\""]
      else sortedParams) []
  ("OAuth " ++ join ", " sortedParams, params)

/-- `oauth` (lines 104-112); the third argument of the source is an object
whose `oauth` property is the credential `auth`. The parameter of
`createSigningKey` destructures its argument, which throws for `undefined` and
`null`. -/
def oauth (rt : Runtime) (fns : OAuthFunctions) (w : World)
    (url method : String) (auth : Auth) (body : Body) : Except Error String :=
  match parameters rt fns w url auth body with
  | .error e => .error e
  | .ok params =>
    let paramString := parameterString url auth params
    match signatureBaseString rt url method paramString with
    | .error e => .error e
    | .ok baseString =>
      match auth with
      | .undefined =>
        .error (.typeError "Cannot destructure property 'consumer_secret' of 'undefined'")
      | .null =>
        .error (.typeError "Cannot destructure property 'consumer_secret' of 'null'")
      | .object credential =>
        let signingKey := createSigningKey credential
        let signature := hmacSha1Signature rt baseString signingKey
        .ok (header url auth signature params).1

/-- A call of `oauth` as a step on the module state: the call reads
`oAuthFunctions` (lines 54-55) and no line it runs assigns to it, so the state
it leaves is the state it found. -/
def oauthCall (rt : Runtime) (w : World) (url method : String) (auth : Auth)
    (body : Body) (fns : OAuthFunctions) : Except Error String × OAuthFunctions :=
  (oauth rt fns w url method auth body, fns)

/-! ## Definitions after the words of the specification -/

/-- The canonical parameter string as the specification words it: for each key
in sorted order the pair `encode(key)=encode(value)`, joined with `&`. -/
def canonicalParameterString (params : Obj) : String :=
  join "&" ((sort params.keys).map fun key =>
    encode key ++ "=" ++ encode (toStr (params.get key)))

/-- The names of the six protocol parameters. -/
def protocolNames : List String :=
  ["oauth_consumer_key", "oauth_token", "oauth_nonce", "oauth_timestamp",
    "oauth_signature_method", "oauth_version"]

/-- The value of the last pair of the query whose name is `name`. -/
def searchParamsLast (searchParams : List (String × String)) (name : String) : Val :=
  searchParamsGet searchParams.reverse name

/-- Every character of the string is ASCII. -/
def isAscii (s : String) : Prop := ∀ c ∈ s.data, c.toNat < 0x80

/-- U+FF5E, a character of the Basic Multilingual Plane, as a string. -/
def fullwidthTilde : String := ⟨[Char.ofNat 0xFF5E]⟩

/-- U+1F600, a character beyond the Basic Multilingual Plane, as a string. -/
def grinningFace : String := ⟨[Char.ofNat 0x1F600]⟩

/-- Value of a hexadecimal digit, either case. -/
def hexValue (c : Char) : Option Nat :=
  if 48 ≤ c.toNat ∧ c.toNat ≤ 57 then some (c.toNat - 48)
  else if 65 ≤ c.toNat ∧ c.toNat ≤ 70 then some (c.toNat - 55)
  else if 97 ≤ c.toNat ∧ c.toNat ≤ 102 then some (c.toNat - 87)
  else none

/-- Where a percent-decoder stands: between escapes, after `%`, or after `%H`
with the value of `H`. -/
inductive EscapeState where
  | plain
  | percent
  | digit (high : Nat)

/-- Percent-decoding to octets, one character at a time: `%HH` is the octet
`HH`, any other ASCII character stands for its own code. -/
def percentDecodeFrom : EscapeState → List Char → Option (List Nat)
  | .plain, [] => some []
  | _, [] => none
  | .plain, c :: rest =>
    if c = '%' then percentDecodeFrom .percent rest
    else if c.toNat < 0x80 then (percentDecodeFrom .plain rest).map (c.toNat :: ·)
    else none
  | .percent, c :: rest =>
    match hexValue c with
    | some high => percentDecodeFrom (.digit high) rest
    | none => none
  | .digit high, c :: rest =>
    match hexValue c with
    | some low => (percentDecodeFrom .plain rest).map ((16 * high + low) :: ·)
    | none => none

/-- Percent-decoding of a whole list of characters. -/
def percentDecode (l : List Char) : Option (List Nat) := percentDecodeFrom .plain l

/-- A UTF-8 continuation octet, `10xxxxxx`. -/
def isContinuation (b : Nat) : Bool := 0x80 ≤ b && b < 0xC0

/-- Reading octets as UTF-8, one octet at a time: `pending` continuation
octets are still due for the code point whose leading bits are `acc`. -/
def utf8DecodeFrom : (pending acc : Nat) → List Nat → Option (List Char)
  | 0, _, [] => some []
  | _ + 1, _, [] => none
  | 0, _, b :: rest =>
    if b < 0x80 then (utf8DecodeFrom 0 0 rest).map (Char.ofNat b :: ·)
    else if b < 0xC0 then none
    else if b < 0xE0 then utf8DecodeFrom 1 (b - 0xC0) rest
    else if b < 0xF0 then utf8DecodeFrom 2 (b - 0xE0) rest
    else if b < 0xF8 then utf8DecodeFrom 3 (b - 0xF0) rest
    else none
  | pending + 1, acc, b :: rest =>
    if isContinuation b then
      if pending = 0 then
        (utf8DecodeFrom 0 0 rest).map (Char.ofNat (acc * 0x40 + (b - 0x80)) :: ·)
      else utf8DecodeFrom pending (acc * 0x40 + (b - 0x80)) rest
    else none

/-- Reading a whole list of octets as UTF-8. -/
def utf8Decode (octets : List Nat) : Option (List Char) := utf8DecodeFrom 0 0 octets

/-- Percent-decoding of a string: every `%HH` back to its octet, the octets
read as UTF-8. -/
def decode (s : String) : Option String :=
  ((percentDecode s.data).bind utf8Decode).map String.mk

/-- The pairs `key=encode(value)` that `parameterString` joins: a parameter
takes part in the canonical parameter string when its pair is one of them. -/
def signedPairs (params : Obj) : List String :=
  (sort params.keys).map fun key => key ++ "=" ++ encode (toStr (params.get key))

/-- Cutting a list of characters at every separator. -/
def splitOn (sep : Char) : List Char → List (List Char)
  | [] => [[]]
  | c :: rest =>
    if c = sep then [] :: splitOn sep rest
    else
      match splitOn sep rest with
      | [] => [[c]]
      | piece :: pieces => (c :: piece) :: pieces

/-- One leading space dropped. -/
def dropSpace : List Char → List Char
  | [] => []
  | c :: rest => if c = ' ' then rest else c :: rest

/-- The part of a piece before its first `=`. -/
def beforeEq : List Char → List Char
  | [] => []
  | c :: rest => if c = '=' then [] else c :: beforeEq rest

/-- The part of a piece after its first `=`. -/
def afterEq : List Char → List Char
  | [] => []
  | c :: rest => if c = '=' then rest else afterEq rest

/-- The entries of a header value, read back from the string: what follows
`OAuth ` is cut at every comma, a leading space is dropped from each piece, and
the piece is cut at its first `=` into a key and a quoted value. -/
def headerEntries (h : String) : List (String × String) :=
  (splitOn ',' (h.data.drop 6)).map fun piece =>
    (String.mk (beforeEq (dropSpace piece)), String.mk (afterEq (dropSpace piece)))

/-- The shapes of body the specification admits: omitted (which counts as the
empty mapping), a string, or a mapping. -/
def Body.isStringOrObject : Body → Bool
  | .undefined => true
  | .string _ => true
  | .object _ => true
  | _ => false

/-- No key of the object contains `&` or `=`. -/
def Obj.plainKeys (o : Obj) : Prop := ∀ k ∈ o.keys, '&' ∉ k.data ∧ '=' ∉ k.data

/-- Every value of the object is a string. -/
def Obj.stringValues (o : Obj) : Prop := ∀ e ∈ o.entries, ∃ s, e.2 = Val.str s

instance Obj.WellFormed.decidable (o : Obj) : Decidable o.WellFormed :=
  inferInstanceAs (Decidable (List.Nodup _))

/-! ## A runtime for concrete evaluation -/

/-- The parsed form of `https://api.example.com/1/statuses/update.json?a=1&a=2&b=3`. -/
def sampleURL : URLObject where
  origin := "https://api.example.com"
  pathname := "/1/statuses/update.json"
  search := "?a=1&a=2&b=3"
  hash := ""
  searchParams := [("a", "1"), ("a", "2"), ("b", "3")]

/-- A stand-in for the platform, defined on the few inputs the examples use. -/
def sampleRuntime : Runtime where
  newURL := fun url =>
    if url = "https://api.example.com/1/statuses/update.json?a=1&a=2&b=3" then some sampleURL
    else if url = "https://api.example.com/1/statuses/update.json" then
      some { sampleURL with search := "", searchParams := [] }
    else if url = "https://api.example.com/1/statuses/update.json?__proto__=1&__proto__=2&b=3"
    then
      some { sampleURL with
        search := "?__proto__=1&__proto__=2&b=3"
        searchParams := [("__proto__", "1"), ("__proto__", "2"), ("b", "3")] }
    else none
  qsParse := fun s =>
    if s = "status=hello" then ⟨[("status", .str "hello")]⟩
    else if s = "oauth_token=evil" then ⟨[("oauth_token", .str "evil")]⟩
    else if s = "oauth_callback=x" then ⟨[("oauth_callback", .str "x")]⟩
    else Obj.empty
  hmacSha1Base64 := fun _ _ => "tnnArxj06cWHq44gCs1OSKk/jLY="
  toUpperCase := fun s => ⟨s.data.map Char.toUpper⟩

/-- Providers that return constants. -/
def sampleFns : OAuthFunctions where
  nonceFn := fun _ => "kYjzVBB8Y0ZFabxSWbWovY3uYSQ2pTgmZeNu2VS4cg"
  timestampFn := fun _ => "1318622958"

/-- A credential. -/
def sampleAuth : Credential where
  consumer_key := "ck"
  consumer_secret := "cs"
  token := "tk"
  token_secret := "ts"

/-- A state of the clock and the random source. -/
def sampleWorld : World := ⟨1318622958000, []⟩

/-! ## Theorems -/

/-! ### Percent-encoding -/

theorem hexDigit_mem (d : Nat) : hexDigit d ∈ "0123456789ABCDEF".data := by
  have h : d % 16 < 16 := Nat.mod_lt _ (by decide)
  unfold hexDigit
  interval_cases (d % 16) <;> decide

theorem percent_mem {b : Nat} {x : Char} (hx : x ∈ percent b) :
    x ∈ "%0123456789ABCDEF".data := by
  simp only [percent, List.mem_cons, List.mem_singleton, List.not_mem_nil, or_false] at hx
  rcases hx with h | h | h
  · subst h; decide
  · subst h; exact List.mem_cons_of_mem _ (hexDigit_mem _)
  · subst h; exact List.mem_cons_of_mem _ (hexDigit_mem _)

theorem flatMap_replace_eq_self (c : Char) (r : List Char) (l : List Char)
    (h : c ∉ l) : (l.flatMap fun x => if x = c then r else [x]) = l := by
  induction l with
  | nil => rfl
  | cons a t ih =>
    have ha : a ≠ c := fun e => h (e ▸ List.mem_cons_self _ _)
    have ht : c ∉ t := fun e => h (List.mem_cons_of_mem _ e)
    simp [List.flatMap_cons, ha, ih ht]

theorem escapes_mem {l : List Nat} {x : Char} (hx : x ∈ l.flatMap percent) :
    x ∈ "%0123456789ABCDEF".data := by
  obtain ⟨b, -, hb⟩ := List.mem_flatMap.1 hx
  exact percent_mem hb

theorem escapes_replace (c : Char) (r : List Char) (l : List Nat)
    (hc : c ∉ "%0123456789ABCDEF".data) :
    ((l.flatMap percent).flatMap fun x => if x = c then r else [x]) = l.flatMap percent :=
  flatMap_replace_eq_self c r _ fun h => hc (escapes_mem h)

/-- What the five replacements of `encode` make of the output of one `Encode` step. -/
theorem encodeChar_replaced (c : Char) :
    (((((encodeChar c).flatMap fun x => if x = '!' then "%21".data else [x]).flatMap
      fun x => if x = '*' then "%2A".data else [x]).flatMap
      fun x => if x = '(' then "%28".data else [x]).flatMap
      fun x => if x = ')' then "%29".data else [x]).flatMap
      (fun x => if x = apostrophe then "%27".data else [x])
      = if unreserved c then [c] else (utf8Octets c.toNat).flatMap percent := by
  by_cases ha : uriAlphaNum c = true
  · have h1 : c ≠ '!' := by rintro rfl; revert ha; decide
    have h2 : c ≠ '*' := by rintro rfl; revert ha; decide
    have h3 : c ≠ '(' := by rintro rfl; revert ha; decide
    have h4 : c ≠ ')' := by rintro rfl; revert ha; decide
    have h5 : c ≠ apostrophe := by rintro rfl; revert ha; decide
    simp [encodeChar, uriUnescaped, unreserved, ha, h1, h2, h3, h4, h5]
  · by_cases hm : c ∈ uriMark
    · simp only [uriMark, List.mem_cons, List.mem_singleton, List.not_mem_nil, or_false] at hm
      rcases hm with h | h | h | h | h | h | h | h | h <;> subst h <;> decide
    · have hu : uriUnescaped c = false := by
        simp [uriUnescaped, ha, hm]
      have hr : unreserved c = false := by
        have e1 : c ≠ '-' := fun e => hm (by rw [e]; decide)
        have e2 : c ≠ '.' := fun e => hm (by rw [e]; decide)
        have e3 : c ≠ '_' := fun e => hm (by rw [e]; decide)
        have e4 : c ≠ '~' := fun e => hm (by rw [e]; decide)
        simp [unreserved, ha, e1, e2, e3, e4]
      simp only [encodeChar, hu, hr, Bool.false_eq_true, if_false]
      rw [escapes_replace _ _ _ (by decide), escapes_replace _ _ _ (by decide),
        escapes_replace _ _ _ (by decide), escapes_replace _ _ _ (by decide),
        escapes_replace _ _ _ (by decide)]

theorem encode_eq_reference (s : String) : encode s = rfc3986Encode s := by
  simp only [encode, replaceAll, encodeURIComponent, rfc3986Encode]
  congr 1
  induction s.data with
  | nil => rfl
  | cons c t ih =>
    simp only [List.flatMap_cons, List.flatMap_append]
    rw [ih, encodeChar_replaced]

/-- C1: for every string, `encode` is the RFC 3986 reference encoding
(unreserved characters kept, every other character replaced by the `%HH`
escapes of its UTF-8 octets, uppercase hexadecimal), and on the sample of the
specification it gives `a%21b%2Ac%28d%29e%27f`. -/
theorem encode_eq_rfc3986 :
    (∀ s : String, encode s = rfc3986Encode s) ∧
      encode "a!b*c(d)e'f" = "a%21b%2Ac%28d%29e%27f" := by
  exact ⟨encode_eq_reference, by decide⟩

/-! ### The sort order -/

theorem lexLe_total : ∀ a b : List Nat, lexLe a b = true ∨ lexLe b a = true
  | [], _ => Or.inl (by simp [lexLe])
  | _ :: _, [] => Or.inr (by simp [lexLe])
  | a :: as, b :: bs => by
    simp only [lexLe, Bool.or_eq_true, Bool.and_eq_true, decide_eq_true_eq, beq_iff_eq]
    rcases Nat.lt_trichotomy a b with h | h | h
    · exact Or.inl (Or.inl h)
    · subst h
      rcases lexLe_total as bs with h' | h'
      · exact Or.inl (Or.inr ⟨rfl, h'⟩)
      · exact Or.inr (Or.inr ⟨rfl, h'⟩)
    · exact Or.inr (Or.inl h)

theorem lexLe_trans : ∀ a b c : List Nat,
    lexLe a b = true → lexLe b c = true → lexLe a c = true
  | [], _, _ => fun _ _ => by simp [lexLe]
  | _ :: _, [], _ => fun h _ => by simp [lexLe] at h
  | _ :: _, _ :: _, [] => fun _ h => by simp [lexLe] at h
  | a :: as, b :: bs, c :: cs => by
    simp only [lexLe, Bool.or_eq_true, Bool.and_eq_true, decide_eq_true_eq, beq_iff_eq]
    rintro (h1 | ⟨h1, t1⟩) (h2 | ⟨h2, t2⟩)
    · exact Or.inl (lt_trans h1 h2)
    · exact Or.inl (h2 ▸ h1)
    · exact Or.inl (h1 ▸ h2)
    · exact Or.inr ⟨h1.trans h2, lexLe_trans as bs cs t1 t2⟩

theorem lexLe_antisymm : ∀ a b : List Nat,
    lexLe a b = true → lexLe b a = true → a = b
  | [], [] => fun _ _ => rfl
  | [], _ :: _ => fun _ h => by simp [lexLe] at h
  | _ :: _, [] => fun h _ => by simp [lexLe] at h
  | a :: as, b :: bs => by
    simp only [lexLe, Bool.or_eq_true, Bool.and_eq_true, decide_eq_true_eq, beq_iff_eq]
    rintro (h1 | ⟨h1, t1⟩) (h2 | ⟨h2, t2⟩)
    · exact absurd h1 (Nat.lt_asymm h2)
    · exact absurd h1 (by omega)
    · exact absurd h2 (by omega)
    · rw [h1, lexLe_antisymm as bs t1 t2]

theorem char_toNat_valid (c : Char) :
    c.toNat < 0xD800 ∨ (0xDFFF < c.toNat ∧ c.toNat < 0x110000) := c.valid

theorem char_toNat_inj {a b : Char} (h : a.toNat = b.toNat) : a = b := by
  rw [← Char.ofNat_toNat a, ← Char.ofNat_toNat b, h]

theorem utf16_data_injective : ∀ a b : List Char,
    (a.flatMap fun c => codeUnits c.toNat) = (b.flatMap fun c => codeUnits c.toNat) → a = b
  | [], [] => fun _ => rfl
  | [], d :: u => fun h => by
    simp only [List.flatMap_nil, List.flatMap_cons, codeUnits] at h
    split at h <;> simp at h
  | c :: t, [] => fun h => by
    simp only [List.flatMap_nil, List.flatMap_cons, codeUnits] at h
    split at h <;> simp at h
  | c :: t, d :: u => fun h => by
    have vc := char_toNat_valid c
    have vd := char_toNat_valid d
    simp only [List.flatMap_cons, codeUnits] at h
    split at h <;> split at h <;>
      simp only [List.cons_append, List.nil_append, List.cons.injEq] at h
    · rw [char_toNat_inj h.1, utf16_data_injective t u h.2]
    · omega
    · omega
    · obtain ⟨h1, h2, h3⟩ := h
      rw [char_toNat_inj (a := c) (b := d) (by omega), utf16_data_injective t u h3]

theorem utf16_injective {a b : String} (h : utf16 a = utf16 b) : a = b :=
  String.ext (utf16_data_injective a.data b.data h)

instance strLe.isTotal : IsTotal String strLe := ⟨fun _ _ => lexLe_total _ _⟩

instance strLe.isTrans : IsTrans String strLe := ⟨fun _ _ _ h1 h2 => lexLe_trans _ _ _ h1 h2⟩

instance strLe.isAntisymm : IsAntisymm String strLe :=
  ⟨fun _ _ h1 h2 => utf16_injective (lexLe_antisymm _ _ h1 h2)⟩

theorem sort_perm (keys : List String) : (sort keys).Perm keys :=
  List.perm_insertionSort strLe keys

theorem sort_sorted (keys : List String) : (sort keys).Sorted strLe :=
  List.sorted_insertionSort strLe keys

theorem mem_sort {k : String} {keys : List String} : k ∈ sort keys ↔ k ∈ keys :=
  (sort_perm keys).mem_iff

theorem sort_nodup {keys : List String} (h : keys.Nodup) : (sort keys).Nodup :=
  (sort_perm keys).nodup_iff.2 h

/-- Sorting is determined by the set of keys, not by their order. -/
theorem sort_eq_of_perm {ks ls : List String} (h : ks.Perm ls) : sort ks = sort ls :=
  List.eq_of_perm_of_sorted (((sort_perm ks).trans h).trans (sort_perm ls).symm)
    (sort_sorted ks) (sort_sorted ls)

theorem sort_eq_self {ks : List String} (h : ks.Sorted strLe) : sort ks = ks :=
  List.Sorted.insertionSort_eq h

theorem sort_strict {keys : List String} (h : keys.Nodup) : (sort keys).Pairwise strLt :=
  List.Pairwise.and (sort_sorted keys) (sort_nodup h)

/-- Filtering commutes with sorting. -/
theorem filter_sort (f : String → Bool) (keys : List String) :
    (sort keys).filter f = sort (keys.filter f) :=
  List.eq_of_perm_of_sorted
    (((sort_perm keys).filter f).trans (sort_perm (keys.filter f)).symm)
    ((sort_sorted keys).filter f) (sort_sorted _)

/-! ### Objects -/

namespace Obj

theorem getL_setL_self (l : List (String × Val)) (k : String) (v : Val) :
    getL (setL l k v) k = some v := by
  induction l with
  | nil => simp [setL, getL]
  | cons a t ih =>
    obtain ⟨k', v'⟩ := a
    by_cases h : k' = k
    · simp [setL, getL, h]
    · simp [setL, getL, h, ih]

theorem getL_setL_ne (l : List (String × Val)) {k k' : String} (v : Val) (h : k' ≠ k) :
    getL (setL l k v) k' = getL l k' := by
  induction l with
  | nil => simp [setL, getL, Ne.symm h]
  | cons a t ih =>
    obtain ⟨k₀, v₀⟩ := a
    by_cases h0 : k₀ = k
    · subst h0
      simp [setL, getL, Ne.symm h]
    · simp only [setL, h0, if_false, getL, ih]

theorem mem_keys_setL (l : List (String × Val)) (k k' : String) (v : Val) :
    k' ∈ (setL l k v).map Prod.fst ↔ k' = k ∨ k' ∈ l.map Prod.fst := by
  induction l with
  | nil => simp [setL]
  | cons a t ih =>
    obtain ⟨k₀, v₀⟩ := a
    by_cases h0 : k₀ = k
    · subst h0
      simp [setL]
    · simp only [setL, h0, if_false, List.map_cons, List.mem_cons, ih]
      tauto

theorem nodup_setL (l : List (String × Val)) (k : String) (v : Val)
    (h : (l.map Prod.fst).Nodup) : ((setL l k v).map Prod.fst).Nodup := by
  induction l with
  | nil => simp [setL]
  | cons a t ih =>
    obtain ⟨k₀, v₀⟩ := a
    rw [List.map_cons, List.nodup_cons] at h
    by_cases h0 : k₀ = k
    · subst h0
      simp only [setL, if_true, List.map_cons, List.nodup_cons]
      exact h
    · simp only [setL, h0, if_false, List.map_cons, List.nodup_cons]
      refine ⟨fun hk => ?_, ih h.2⟩
      rcases (mem_keys_setL _ _ _ _).1 hk with e | e
      · exact h0 e
      · exact h.1 e

theorem getL_eq_none (l : List (String × Val)) (k : String) :
    getL l k = none ↔ k ∉ l.map Prod.fst := by
  induction l with
  | nil => simp [getL]
  | cons a t ih =>
    obtain ⟨k₀, v₀⟩ := a
    by_cases h0 : k₀ = k
    · simp [getL, h0]
    · simp [getL, h0, ih, Ne.symm h0]

theorem get_set_self (o : Obj) (k : String) (v : Val) : (o.set k v).get k = some v :=
  getL_setL_self _ _ _

theorem get_set_ne (o : Obj) {k k' : String} (v : Val) (h : k' ≠ k) :
    (o.set k v).get k' = o.get k' :=
  getL_setL_ne _ _ h

theorem mem_keys_set (o : Obj) (k k' : String) (v : Val) :
    k' ∈ (o.set k v).keys ↔ k' = k ∨ k' ∈ o.keys :=
  mem_keys_setL _ _ _ _

theorem wellFormed_set {o : Obj} (h : o.WellFormed) (k : String) (v : Val) :
    (o.set k v).WellFormed :=
  nodup_setL _ _ _ h

theorem wellFormed_empty : empty.WellFormed := List.nodup_nil

theorem get_eq_none (o : Obj) (k : String) : o.get k = none ↔ k ∉ o.keys :=
  getL_eq_none _ _

theorem get_put_self (o : Obj) {k : String} (v : Val) (hk : k ≠ "__proto__") :
    (o.put k v).get k = some v := by
  rw [put, if_neg hk, get_set_self]

theorem get_put_ne (o : Obj) {k k' : String} (v : Val) (h : k' ≠ k) :
    (o.put k v).get k' = o.get k' := by
  unfold put
  split
  · rfl
  · exact get_set_ne _ _ h

theorem get_put_proto (o : Obj) (k : String) (v : Val) :
    (o.put k v).get "__proto__" = o.get "__proto__" := by
  by_cases hk : k = "__proto__"
  · rw [put, if_pos hk]
  · exact get_put_ne _ _ (Ne.symm hk)

theorem mem_keys_put (o : Obj) (k k' : String) (v : Val) :
    k' ∈ (o.put k v).keys ↔ (k' = k ∧ k ≠ "__proto__") ∨ k' ∈ o.keys := by
  by_cases hk : k = "__proto__"
  · rw [put, if_pos hk]
    exact ⟨Or.inr, fun h => h.elim (fun h' => absurd hk h'.2) id⟩
  · rw [put, if_neg hk, mem_keys_set]
    exact ⟨fun h => h.imp (fun e => ⟨e, hk⟩) id, fun h => h.imp (fun e => e.1) id⟩

theorem wellFormed_put {o : Obj} (h : o.WellFormed) (k : String) (v : Val) :
    (o.put k v).WellFormed := by
  unfold put
  split
  · exact h
  · exact wellFormed_set h _ _

theorem mem_keys_assignL (l : List (String × Val)) (t : Obj) (k : String) :
    k ∈ (l.foldl (fun acc kv => acc.put kv.1 kv.2) t).keys ↔
      k ∈ t.keys ∨ (k ∈ l.map Prod.fst ∧ k ≠ "__proto__") := by
  induction l generalizing t with
  | nil => simp
  | cons a r ih =>
    rw [List.foldl_cons, ih, mem_keys_put, List.map_cons, List.mem_cons]
    constructor
    · rintro ((⟨e, hp⟩ | h) | ⟨h, hp⟩)
      · exact Or.inr ⟨Or.inl e, e ▸ hp⟩
      · exact Or.inl h
      · exact Or.inr ⟨Or.inr h, hp⟩
    · rintro (h | ⟨e | h, hp⟩)
      · exact Or.inl (Or.inr h)
      · exact Or.inl (Or.inl ⟨e, e ▸ hp⟩)
      · exact Or.inr ⟨h, hp⟩

theorem wellFormed_assignL (l : List (String × Val)) (t : Obj) (h : t.WellFormed) :
    (l.foldl (fun acc kv => acc.put kv.1 kv.2) t).WellFormed := by
  induction l generalizing t with
  | nil => exact h
  | cons a r ih => exact ih _ (wellFormed_put h _ _)

theorem get_assignL_of_not_mem (l : List (String × Val)) (t : Obj) (k : String)
    (hk : k ∉ l.map Prod.fst) :
    (l.foldl (fun acc kv => acc.put kv.1 kv.2) t).get k = t.get k := by
  induction l generalizing t with
  | nil => rfl
  | cons a r ih =>
    rw [List.map_cons, List.mem_cons, not_or] at hk
    rw [List.foldl_cons, ih _ hk.2, get_put_ne _ _ hk.1]

theorem get_assignL_proto (l : List (String × Val)) (t : Obj) :
    (l.foldl (fun acc kv => acc.put kv.1 kv.2) t).get "__proto__" = t.get "__proto__" := by
  induction l generalizing t with
  | nil => rfl
  | cons a r ih => rw [List.foldl_cons, ih, get_put_proto]

theorem get_assignL_of_mem (l : List (String × Val)) (t : Obj) (k : String)
    (hl : (l.map Prod.fst).Nodup) (hk : k ∈ l.map Prod.fst) (hp : k ≠ "__proto__") :
    (l.foldl (fun acc kv => acc.put kv.1 kv.2) t).get k = getL l k := by
  induction l generalizing t with
  | nil => simp at hk
  | cons a r ih =>
    obtain ⟨k₀, v₀⟩ := a
    rw [List.map_cons, List.nodup_cons] at hl
    rw [List.foldl_cons]
    by_cases h0 : k₀ = k
    · subst h0
      rw [get_assignL_of_not_mem _ _ _ hl.1, get_put_self _ _ hp]
      simp [getL]
    · have hk' : k ∈ r.map Prod.fst := by
        rw [List.map_cons, List.mem_cons] at hk
        exact hk.resolve_left (Ne.symm h0)
      rw [ih _ hl.2 hk']
      simp [getL, h0]

theorem mem_keys_assign (t s : Obj) (k : String) :
    k ∈ (t.assign s).keys ↔ k ∈ t.keys ∨ (k ∈ s.keys ∧ k ≠ "__proto__") :=
  mem_keys_assignL _ _ _

theorem wellFormed_assign {t : Obj} (h : t.WellFormed) (s : Obj) : (t.assign s).WellFormed :=
  wellFormed_assignL _ _ h

theorem get_assign_of_not_mem (t s : Obj) {k : String} (hk : k ∉ s.keys) :
    (t.assign s).get k = t.get k :=
  get_assignL_of_not_mem _ _ _ hk

theorem get_assign_proto (t s : Obj) : (t.assign s).get "__proto__" = t.get "__proto__" :=
  get_assignL_proto _ _

theorem get_assign_of_mem (t : Obj) {s : Obj} (hs : s.WellFormed) {k : String}
    (hk : k ∈ s.keys) (hp : k ≠ "__proto__") : (t.assign s).get k = s.get k :=
  get_assignL_of_mem _ _ _ hs hk hp

end Obj

/-! ### The loops of the module -/

theorem foldl_push (f : String → String) (l : List String) (init : List String) :
    l.foldl (fun acc key => acc ++ [f key]) init = init ++ l.map f := by
  induction l generalizing init with
  | nil => simp
  | cons a t ih => simp [ih]

theorem foldl_push_if (p : String → Bool) (f : String → String) (l : List String)
    (init : List String) :
    l.foldl (fun acc key => if p key then acc ++ [f key] else acc) init
      = init ++ (l.filter p).map f := by
  induction l generalizing init with
  | nil => simp
  | cons a t ih =>
    by_cases h : p a = true
    · simp [ih, h]
    · simp [ih, h]

/-- The query loop: what the result holds for each key. -/
theorem get_foldl_put (g : String → Val) (ks : List String) (t : Obj) (k : String) :
    (ks.foldl (fun params key => params.put key (g key)) t).get k
      = if k ∈ ks ∧ k ≠ "__proto__" then some (g k) else t.get k := by
  induction ks generalizing t with
  | nil => simp
  | cons a r ih =>
    rw [List.foldl_cons, ih]
    by_cases hp : k = "__proto__"
    · rw [if_neg (fun h => h.2 hp), if_neg (fun h => h.2 hp), hp, Obj.get_put_proto]
    · by_cases hr : k ∈ r
      · rw [if_pos ⟨hr, hp⟩, if_pos ⟨List.mem_cons_of_mem _ hr, hp⟩]
      · by_cases ha : k = a
        · rw [if_neg (fun h => hr h.1), if_pos ⟨ha ▸ List.mem_cons_self _ _, hp⟩, ← ha,
            Obj.get_put_self _ _ hp]
        · rw [if_neg (fun h => hr h.1), Obj.get_put_ne _ _ ha, if_neg]
          rintro ⟨h, -⟩
          exact (List.mem_cons.1 h).elim ha hr

theorem mem_keys_foldl_put (g : String → Val) (ks : List String) (t : Obj) (k : String) :
    k ∈ (ks.foldl (fun params key => params.put key (g key)) t).keys
      ↔ (k ∈ ks ∧ k ≠ "__proto__") ∨ k ∈ t.keys := by
  induction ks generalizing t with
  | nil => simp
  | cons a r ih =>
    rw [List.foldl_cons, ih, Obj.mem_keys_put, List.mem_cons]
    constructor
    · rintro (⟨h, hp⟩ | ⟨e, hp⟩ | h)
      · exact Or.inl ⟨Or.inr h, hp⟩
      · exact Or.inl ⟨Or.inl e, e ▸ hp⟩
      · exact Or.inr h
    · rintro (⟨e | h, hp⟩ | h)
      · exact Or.inr (Or.inl ⟨e, e ▸ hp⟩)
      · exact Or.inl ⟨h, hp⟩
      · exact Or.inr (Or.inr h)

theorem wellFormed_foldl_put (g : String → Val) (ks : List String) (t : Obj)
    (h : t.WellFormed) :
    (ks.foldl (fun params key => params.put key (g key)) t).WellFormed := by
  induction ks generalizing t with
  | nil => exact h
  | cons a r ih => exact ih _ (Obj.wellFormed_put h _ _)

theorem get_queryParams (sp : List (String × String)) (k : String) :
    (queryParams sp).get k
      = if k ∈ sp.map Prod.fst ∧ k ≠ "__proto__" then some (searchParamsGet sp k)
        else none := by
  unfold queryParams
  rw [get_foldl_put]
  rfl

theorem mem_keys_queryParams (sp : List (String × String)) (k : String) :
    k ∈ (queryParams sp).keys ↔ k ∈ sp.map Prod.fst ∧ k ≠ "__proto__" := by
  unfold queryParams
  rw [mem_keys_foldl_put]
  simp [Obj.keys, Obj.empty]

theorem wellFormed_queryParams (sp : List (String × String)) : (queryParams sp).WellFormed :=
  wellFormed_foldl_put _ _ _ Obj.wellFormed_empty

theorem parameterString_eq_map (url : String) (auth : Auth) (params : Obj) :
    parameterString url auth params
      = join "&" ((sort params.keys).map fun key =>
          key ++ "=" ++ encode (toStr (params.get key))) := by
  simp only [parameterString, foldl_push, List.nil_append]

theorem getL_perm {l₁ l₂ : List (String × Val)} (h : l₁.Perm l₂)
    (nd : (l₁.map Prod.fst).Nodup) (k : String) : Obj.getL l₁ k = Obj.getL l₂ k := by
  induction h with
  | nil => rfl
  | cons a _ ih =>
    rw [List.map_cons, List.nodup_cons] at nd
    simp only [Obj.getL, ih nd.2]
  | swap a b l =>
    simp only [List.map_cons, List.nodup_cons, List.mem_cons, not_or] at nd
    simp only [Obj.getL]
    by_cases ha : a.1 = k
    · by_cases hb : b.1 = k
      · exact absurd (hb.trans ha.symm) nd.1.1
      · simp [ha, hb]
    · simp [ha]
  | trans h₁ _ ih₁ ih₂ =>
    rw [ih₁ nd, ih₂ ((h₁.map Prod.fst).nodup_iff.1 nd)]

theorem utf8_eq_utf16_of_isAscii {s : String} (h : isAscii s) : utf8 s = utf16 s := by
  unfold utf8 utf16
  refine List.flatMap_congr fun c hc => ?_
  have := h c hc
  simp only [utf8Octets, codeUnits]
  rw [if_pos this, if_pos (by omega)]

/-! ### Parameter collection -/

theorem get_setProtocol_of_not_mem (fns : OAuthFunctions) (w : World) (auth : Credential)
    (params : Obj) {k : String} (hk : k ∉ protocolNames) :
    (setProtocol fns w auth params).get k = params.get k := by
  simp only [protocolNames, List.mem_cons, List.not_mem_nil, or_false, not_or] at hk
  obtain ⟨h1, h2, h3, h4, h5, h6⟩ := hk
  unfold setProtocol
  rw [Obj.get_set_ne _ _ h6, Obj.get_set_ne _ _ h5, Obj.get_set_ne _ _ h4,
    Obj.get_set_ne _ _ h3, Obj.get_set_ne _ _ h2, Obj.get_set_ne _ _ h1]

theorem mem_keys_setProtocol (fns : OAuthFunctions) (w : World) (auth : Credential)
    (params : Obj) (k : String) :
    k ∈ (setProtocol fns w auth params).keys ↔ k ∈ protocolNames ∨ k ∈ params.keys := by
  simp only [setProtocol, Obj.mem_keys_set, protocolNames, List.mem_cons, List.not_mem_nil,
    or_false]
  tauto

theorem wellFormed_setProtocol (fns : OAuthFunctions) (w : World) (auth : Credential)
    {params : Obj} (h : params.WellFormed) : (setProtocol fns w auth params).WellFormed := by
  unfold setProtocol
  exact Obj.wellFormed_set (Obj.wellFormed_set (Obj.wellFormed_set (Obj.wellFormed_set
    (Obj.wellFormed_set (Obj.wellFormed_set h _ _) _ _) _ _) _ _) _ _) _ _

theorem get_setProtocol (fns : OAuthFunctions) (w : World) (auth : Credential) (params : Obj) :
    (setProtocol fns w auth params).get "oauth_consumer_key" = some (.str auth.consumer_key) ∧
    (setProtocol fns w auth params).get "oauth_token" = some (.str auth.token) ∧
    (setProtocol fns w auth params).get "oauth_nonce" = some (.str (fns.nonceFn w)) ∧
    (setProtocol fns w auth params).get "oauth_timestamp" = some (.str (fns.timestampFn w)) ∧
    (setProtocol fns w auth params).get "oauth_signature_method" = some (.str "HMAC-SHA1") ∧
    (setProtocol fns w auth params).get "oauth_version" = some (.str "1.0") := by
  unfold setProtocol
  refine ⟨?_, ?_, ?_, ?_, ?_, ?_⟩
  · rw [Obj.get_set_ne _ _ (by decide), Obj.get_set_ne _ _ (by decide),
      Obj.get_set_ne _ _ (by decide), Obj.get_set_ne _ _ (by decide),
      Obj.get_set_ne _ _ (by decide), Obj.get_set_self]
  · rw [Obj.get_set_ne _ _ (by decide), Obj.get_set_ne _ _ (by decide),
      Obj.get_set_ne _ _ (by decide), Obj.get_set_ne _ _ (by decide), Obj.get_set_self]
  · rw [Obj.get_set_ne _ _ (by decide), Obj.get_set_ne _ _ (by decide),
      Obj.get_set_ne _ _ (by decide), Obj.get_set_self]
  · rw [Obj.get_set_ne _ _ (by decide), Obj.get_set_ne _ _ (by decide), Obj.get_set_self]
  · rw [Obj.get_set_ne _ _ (by decide), Obj.get_set_self]
  · rw [Obj.get_set_self]

/-- When the URL parses and the body has an admissible shape, `parameters`
returns, and this is what it returns. -/
theorem parameters_eq_ok (rt : Runtime) (fns : OAuthFunctions) (w : World)
    (url : String) (auth : Credential) (body : Body) {u : URLObject} {b : Obj}
    (hu : rt.newURL url = some u) (hb : bodyObject rt body = .ok b) :
    parameters rt fns w url auth body
      = .ok (setProtocol fns w auth ((queryParams u.searchParams).assign b)) := by
  simp only [parameters, hu, hb]

theorem wellFormed_collected (fns : OAuthFunctions) (w : World) (auth : Credential)
    (sp : List (String × String)) (b : Obj) :
    (setProtocol fns w auth ((queryParams sp).assign b)).WellFormed :=
  wellFormed_setProtocol _ _ _ (Obj.wellFormed_assign (wellFormed_queryParams sp) b)

/-- `searchParams.get(name)` is the value of the first pair named `name`. -/
theorem searchParamsGet_first (sp : List (String × String)) (k : String)
    (hk : k ∈ sp.map Prod.fst) :
    ∃ pre v post, sp = pre ++ (k, v) :: post ∧ k ∉ pre.map Prod.fst ∧
      searchParamsGet sp k = .str v := by
  induction sp with
  | nil => simp at hk
  | cons a t ih =>
    obtain ⟨k₀, v₀⟩ := a
    by_cases h0 : k₀ = k
    · subst h0
      exact ⟨[], v₀, t, rfl, by simp, by simp [searchParamsGet]⟩
    · have hk' : k ∈ t.map Prod.fst := by
        rw [List.map_cons, List.mem_cons] at hk
        exact hk.resolve_left (Ne.symm h0)
      obtain ⟨pre, v, post, e, hpre, hv⟩ := ih hk'
      refine ⟨(k₀, v₀) :: pre, v, post, by rw [e]; rfl, ?_, ?_⟩
      · simp only [List.map_cons, List.mem_cons, not_or]
        exact ⟨Ne.symm h0, hpre⟩
      · simp [searchParamsGet, h0, hv]

/-! ### Header formatting -/

theorem header_eq (url : String) (auth : Auth) (signature : String) (params : Obj) :
    header url auth signature params
      = ("OAuth " ++ join ", "
          (((sort (params.set "oauth_signature" (.str signature)).keys).filter
              fun key => startsWith key "oauth_").map fun key =>
            key ++ "=\"" ++
              encode (toStr ((params.set "oauth_signature" (.str signature)).get key)) ++ "\""),
        params.set "oauth_signature" (.str signature)) := by
  simp only [header, foldl_push_if, List.nil_append]

/-- The seven names the header carries when no other `oauth_` key is around,
in sorted order. -/
theorem sort_headerNames :
    sort ["oauth_consumer_key", "oauth_nonce", "oauth_signature", "oauth_signature_method",
        "oauth_timestamp", "oauth_token", "oauth_version"]
      = ["oauth_consumer_key", "oauth_nonce", "oauth_signature", "oauth_signature_method",
        "oauth_timestamp", "oauth_token", "oauth_version"] := by
  decide

theorem signatureBaseString_eq_ok (rt : Runtime) (url method paramString : String)
    {u : URLObject} (hu : rt.newURL url = some u) :
    signatureBaseString rt url method paramString
      = .ok (rt.toUpperCase method ++ "&" ++ encode (u.origin ++ u.pathname) ++ "&" ++
          encode paramString) := by
  simp only [signatureBaseString, hu]

/-- When the URL parses and the body has an admissible shape, `oauth` returns
the header made from the collected parameters and the signature of their
base string. -/
theorem oauth_eq_ok (rt : Runtime) (fns : OAuthFunctions) (w : World)
    (url method : String) (auth : Credential) (body : Body) {u : URLObject} {b : Obj}
    (hu : rt.newURL url = some u) (hb : bodyObject rt body = .ok b) :
    oauth rt fns w url method auth body
      = .ok (header url auth
          (hmacSha1Signature rt
            (rt.toUpperCase method ++ "&" ++ encode (u.origin ++ u.pathname) ++ "&" ++
              encode (parameterString url auth
                (setProtocol fns w auth ((queryParams u.searchParams).assign b))))
            (createSigningKey auth))
          (setProtocol fns w auth ((queryParams u.searchParams).assign b))).1 := by
  simp only [oauth, parameters_eq_ok rt fns w url auth body hu hb,
    signatureBaseString_eq_ok rt url method _ hu]

theorem mem_keys_collected (fns : OAuthFunctions) (w : World) (auth : Credential)
    (sp : List (String × String)) (b : Obj) (signature k : String) :
    k ∈ ((setProtocol fns w auth ((queryParams sp).assign b)).set "oauth_signature"
        (.str signature)).keys
      ↔ k = "oauth_signature" ∨ k ∈ protocolNames ∨
        (k ∈ sp.map Prod.fst ∧ k ≠ "__proto__") ∨ (k ∈ b.keys ∧ k ≠ "__proto__") := by
  rw [Obj.mem_keys_set, mem_keys_setProtocol, Obj.mem_keys_assign, mem_keys_queryParams]

/-- Without `oauth_` keys in the query and the body, the keys the header keeps
are the six protocol names and `oauth_signature`. -/
theorem headerKeys_of_no_oauth (fns : OAuthFunctions) (w : World) (auth : Credential)
    (sp : List (String × String)) (b : Obj) (signature : String)
    (hq : ∀ k ∈ sp.map Prod.fst, startsWith k "oauth_" = false)
    (hbk : ∀ k ∈ b.keys, startsWith k "oauth_" = false) :
    (sort ((setProtocol fns w auth ((queryParams sp).assign b)).set "oauth_signature"
        (.str signature)).keys).filter (fun key => startsWith key "oauth_")
      = ["oauth_consumer_key", "oauth_nonce", "oauth_signature", "oauth_signature_method",
        "oauth_timestamp", "oauth_token", "oauth_version"] := by
  rw [filter_sort, ← sort_headerNames]
  refine sort_eq_of_perm ((List.perm_ext_iff_of_nodup ?_ (by decide)).2 fun k => ?_)
  · exact List.Nodup.filter _
      (Obj.wellFormed_set (wellFormed_collected fns w auth sp b) _ _)
  · rw [List.mem_filter, mem_keys_collected]
    constructor
    · rintro ⟨h | h | h | h, hpre⟩
      · subst h; decide
      · simp only [protocolNames, List.mem_cons, List.mem_singleton, List.not_mem_nil,
          or_false] at h ⊢
        tauto
      · rw [hq k h.1] at hpre; exact absurd hpre (by decide)
      · rw [hbk k h.1] at hpre; exact absurd hpre (by decide)
    · intro h
      simp only [List.mem_cons, List.mem_singleton, List.not_mem_nil, or_false] at h
      rcases h with h | h | h | h | h | h | h <;> subst h <;>
        exact ⟨by simp [protocolNames], by decide⟩

theorem setL_setL_self (l : List (String × Val)) (k : String) (v : Val) :
    Obj.setL (Obj.setL l k v) k v = Obj.setL l k v := by
  induction l with
  | nil => simp [Obj.setL]
  | cons a t ih =>
    obtain ⟨k₀, v₀⟩ := a
    by_cases h0 : k₀ = k
    · simp [Obj.setL, h0]
    · simp [Obj.setL, h0, ih]

theorem set_set_self (o : Obj) (k : String) (v : Val) : (o.set k v).set k v = o.set k v := by
  simp only [Obj.set, setL_setL_self]

theorem oauth_of_constant (rt : Runtime) (fns : OAuthFunctions) (w₁ w₂ : World)
    (url method : String) (auth : Credential) (body : Body)
    (hn : fns.nonceFn w₁ = fns.nonceFn w₂) (ht : fns.timestampFn w₁ = fns.timestampFn w₂) :
    oauth rt fns w₁ url method auth body = oauth rt fns w₂ url method auth body := by
  simp only [oauth, parameters, setProtocol, hn, ht]

/-! ### Decoding -/

theorem hexValue_hexDigit (d : Nat) : hexValue (hexDigit d) = some (d % 16) := by
  have h : d % 16 < 16 := Nat.mod_lt _ (by decide)
  unfold hexDigit
  interval_cases (d % 16) <;> rfl

theorem percentDecode_percent (b : Nat) (rest : List Char) (hb : b < 256) :
    percentDecode (percent b ++ rest) = (percentDecode rest).map (b :: ·) := by
  have e : 16 * (b / 16 % 16) + b % 16 = b := by omega
  show percentDecodeFrom .plain ('%' :: hexDigit (b / 16) :: hexDigit b :: rest) = _
  rw [percentDecodeFrom, if_pos rfl, percentDecodeFrom, hexValue_hexDigit]
  dsimp only
  rw [percentDecodeFrom, hexValue_hexDigit]
  dsimp only
  rw [e]
  rfl

theorem percentDecode_literal (c : Char) (rest : List Char) (h1 : c ≠ '%')
    (h2 : c.toNat < 0x80) :
    percentDecode (c :: rest) = (percentDecode rest).map (c.toNat :: ·) := by
  show percentDecodeFrom .plain (c :: rest) = _
  rw [percentDecodeFrom, if_neg h1, if_pos h2]
  rfl

theorem utf8DecodeFrom_lead (b : Nat) (rest : List Nat) :
    utf8DecodeFrom 0 0 (b :: rest)
      = if b < 0x80 then (utf8DecodeFrom 0 0 rest).map (Char.ofNat b :: ·)
        else if b < 0xC0 then none
        else if b < 0xE0 then utf8DecodeFrom 1 (b - 0xC0) rest
        else if b < 0xF0 then utf8DecodeFrom 2 (b - 0xE0) rest
        else if b < 0xF8 then utf8DecodeFrom 3 (b - 0xF0) rest
        else none := by
  rw [utf8DecodeFrom]

theorem utf8DecodeFrom_last (acc b : Nat) (rest : List Nat) (h : 0x80 ≤ b ∧ b < 0xC0) :
    utf8DecodeFrom 1 acc (b :: rest)
      = (utf8DecodeFrom 0 0 rest).map (Char.ofNat (acc * 0x40 + (b - 0x80)) :: ·) := by
  have c : isContinuation b = true := by simp [isContinuation, h]
  rw [utf8DecodeFrom, if_pos c, if_pos rfl]

theorem utf8DecodeFrom_more (pending acc b : Nat) (rest : List Nat)
    (h : 0x80 ≤ b ∧ b < 0xC0) :
    utf8DecodeFrom (pending + 2) acc (b :: rest)
      = utf8DecodeFrom (pending + 1) (acc * 0x40 + (b - 0x80)) rest := by
  have c : isContinuation b = true := by simp [isContinuation, h]
  rw [utf8DecodeFrom, if_pos c, if_neg (by omega)]

theorem percentDecode_escapes (octets : List Nat) (rest : List Char)
    (h : ∀ b ∈ octets, b < 256) :
    percentDecode (octets.flatMap percent ++ rest)
      = (percentDecode rest).map (octets ++ ·) := by
  induction octets with
  | nil => simp
  | cons b t ih =>
    rw [List.flatMap_cons, List.append_assoc,
      percentDecode_percent b _ (h b (List.mem_cons_self _ _)),
      ih fun x hx => h x (List.mem_cons_of_mem _ hx)]
    cases percentDecode rest <;> simp

theorem unreserved_ascii {c : Char} (h : unreserved c = true) :
    c ≠ '%' ∧ c.toNat < 0x80 := by
  simp only [unreserved, uriAlphaNum, Bool.or_eq_true, Bool.and_eq_true, decide_eq_true_eq] at h
  refine ⟨?_, ?_⟩
  · rintro rfl
    revert h
    decide
  · rcases h with (((h | h) | h) | h) | h
    · rcases h with (h | h) | h <;> omega
    · subst h; decide
    · subst h; decide
    · subst h; decide
    · subst h; decide

theorem utf8Octets_lt {n : Nat} (hn : n < 0x110000) : ∀ b ∈ utf8Octets n, b < 256 := by
  intro b hb
  unfold utf8Octets at hb
  split_ifs at hb <;>
    simp only [List.mem_cons, List.mem_singleton, List.not_mem_nil, or_false] at hb <;>
    omega

theorem char_toNat_lt (c : Char) : c.toNat < 0x110000 := by
  rcases char_toNat_valid c with h | h <;> omega

theorem percentDecode_reference (l : List Char) :
    percentDecode (l.flatMap fun c =>
        if unreserved c then [c] else (utf8Octets c.toNat).flatMap percent)
      = some (l.flatMap fun c => utf8Octets c.toNat) := by
  induction l with
  | nil => rfl
  | cons c t ih =>
    rw [List.flatMap_cons, List.flatMap_cons]
    by_cases hc : unreserved c = true
    · obtain ⟨h1, h2⟩ := unreserved_ascii hc
      have e : utf8Octets c.toNat = [c.toNat] := by
        unfold utf8Octets
        rw [if_pos h2]
      rw [if_pos hc, e, List.singleton_append, percentDecode_literal _ _ h1 h2, ih]
      rfl
    · rw [if_neg hc, percentDecode_escapes _ _ (utf8Octets_lt (char_toNat_lt c)), ih]
      rfl

theorem utf8Decode_octets (c : Char) (rest : List Nat) :
    utf8Decode (utf8Octets c.toNat ++ rest) = (utf8Decode rest).map (c :: ·) := by
  have hv := char_toNat_lt c
  unfold utf8Octets utf8Decode
  split_ifs with h1 h2 h3
  · rw [List.singleton_append, utf8DecodeFrom_lead, if_pos h1, Char.ofNat_toNat]
  · have e : (0xC0 + c.toNat / 0x40 - 0xC0) * 0x40 + (0x80 + c.toNat % 0x40 - 0x80)
        = c.toNat := by omega
    show utf8DecodeFrom 0 0 (_ :: _ :: rest) = _
    rw [utf8DecodeFrom_lead, if_neg (by omega), if_neg (by omega), if_pos (by omega),
      utf8DecodeFrom_last _ _ _ (by omega), e, Char.ofNat_toNat]
  · have e : ((0xE0 + c.toNat / 0x1000 - 0xE0) * 0x40
        + (0x80 + c.toNat / 0x40 % 0x40 - 0x80)) * 0x40 + (0x80 + c.toNat % 0x40 - 0x80)
        = c.toNat := by omega
    show utf8DecodeFrom 0 0 (_ :: _ :: _ :: rest) = _
    rw [utf8DecodeFrom_lead, if_neg (by omega), if_neg (by omega), if_neg (by omega),
      if_pos (by omega), utf8DecodeFrom_more 0 _ _ _ (by omega),
      utf8DecodeFrom_last _ _ _ (by omega), e, Char.ofNat_toNat]
  · have e : (((0xF0 + c.toNat / 0x40000 - 0xF0) * 0x40
        + (0x80 + c.toNat / 0x1000 % 0x40 - 0x80)) * 0x40
        + (0x80 + c.toNat / 0x40 % 0x40 - 0x80)) * 0x40 + (0x80 + c.toNat % 0x40 - 0x80)
        = c.toNat := by omega
    show utf8DecodeFrom 0 0 (_ :: _ :: _ :: _ :: rest) = _
    rw [utf8DecodeFrom_lead, if_neg (by omega), if_neg (by omega), if_neg (by omega),
      if_neg (by omega), if_pos (by omega), utf8DecodeFrom_more 1 _ _ _ (by omega),
      utf8DecodeFrom_more 0 _ _ _ (by omega), utf8DecodeFrom_last _ _ _ (by omega), e,
      Char.ofNat_toNat]
theorem utf8Decode_utf8 (l : List Char) :
    utf8Decode (l.flatMap fun c => utf8Octets c.toNat) = some l := by
  induction l with
  | nil => rfl
  | cons c t ih =>
    rw [List.flatMap_cons, utf8Decode_octets, ih]
    rfl

/-- Percent-decoding undoes `encode`. -/
theorem decode_encode (s : String) : decode (encode s) = some s := by
  rw [encode_eq_reference]
  simp only [decode, rfc3986Encode, percentDecode_reference]
  rw [Option.some_bind, utf8Decode_utf8]
  rfl

theorem encode_injective {a b : String} (h : encode a = encode b) : a = b := by
  have := decode_encode a
  rw [h, decode_encode] at this
  exact (Option.some.inj this).symm

/-! ### Reading the canonical string back -/

/-- A list of characters is cut at the first separator in one way only. -/
theorem split_unique (sep : Char) : ∀ (a b r r' : List Char), sep ∉ a → sep ∉ b →
    a ++ sep :: r = b ++ sep :: r' → a = b ∧ r = r'
  | [], [], _, _, _, _, h => ⟨rfl, (List.cons.inj h).2⟩
  | [], y :: b, _, _, _, hb, h => by
    have : sep = y := (List.cons.inj h).1
    exact absurd (this ▸ List.mem_cons_self _ _) hb
  | x :: a, [], _, _, ha, _, h => by
    have : x = sep := (List.cons.inj h).1
    exact absurd (this ▸ List.mem_cons_self _ _) ha
  | x :: a, y :: b, r, r', ha, hb, h => by
    obtain ⟨e1, e2⟩ := List.cons.inj h
    obtain ⟨e3, e4⟩ := split_unique sep a b r r'
      (fun m => ha (List.mem_cons_of_mem _ m)) (fun m => hb (List.mem_cons_of_mem _ m)) e2
    exact ⟨by rw [e1, e3], e4⟩

theorem join_cons_cons (sep a b : String) (rest : List String) :
    join sep (a :: b :: rest) = a ++ sep ++ join sep (b :: rest) := rfl

theorem data_append_sep (a b : String) (c : Char) :
    (a ++ String.mk [c] ++ b).data = a.data ++ c :: b.data := by
  simp [String.data_append]

/-- `join "&"` is injective on lists of non-empty strings without `&`. -/
theorem join_amp_injective : ∀ (xs ys : List String),
    (∀ x ∈ xs, '&' ∉ x.data ∧ x ≠ "") → (∀ y ∈ ys, '&' ∉ y.data ∧ y ≠ "") →
    join "&" xs = join "&" ys → xs = ys
  | [], [], _, _, _ => rfl
  | [], [y], _, hy, h => absurd h.symm (hy y (List.mem_cons_self _ _)).2
  | [], y :: y' :: r, _, _, h => by
    rw [join_cons_cons] at h
    have := congrArg String.data h
    rw [show ("&" : String) = String.mk ['&'] from rfl, data_append_sep] at this
    exact absurd this (by simp [join])
  | [x], [], hx, _, h => absurd h (hx x (List.mem_cons_self _ _)).2
  | [x], [y], _, _, h => by
    have : x = y := h
    rw [this]
  | [x], y :: y' :: r, hx, _, h => by
    rw [join_cons_cons] at h
    have e : x.data = _ := congrArg String.data h
    rw [show ("&" : String) = String.mk ['&'] from rfl, data_append_sep] at e
    have hm : '&' ∈ x.data := by rw [e]; simp
    exact absurd hm (hx x (List.mem_cons_self _ _)).1
  | x :: x' :: r, [], _, _, h => by
    rw [join_cons_cons] at h
    have := congrArg String.data h
    rw [show ("&" : String) = String.mk ['&'] from rfl, data_append_sep] at this
    exact absurd this (by simp [join])
  | x :: x' :: r, [y], _, hy, h => by
    rw [join_cons_cons] at h
    have e : _ = y.data := congrArg String.data h
    rw [show ("&" : String) = String.mk ['&'] from rfl, data_append_sep] at e
    have hm : '&' ∈ y.data := by rw [← e]; simp
    exact absurd hm (hy y (List.mem_cons_self _ _)).1
  | x :: x' :: r, y :: y' :: r', hx, hy, h => by
    rw [join_cons_cons, join_cons_cons] at h
    have e := congrArg String.data h
    rw [show ("&" : String) = String.mk ['&'] from rfl, data_append_sep, data_append_sep] at e
    obtain ⟨e1, e2⟩ := split_unique '&' _ _ _ _ (hx x (List.mem_cons_self _ _)).1
      (hy y (List.mem_cons_self _ _)).1 e
    have ih := join_amp_injective (x' :: r) (y' :: r')
      (fun z hz => hx z (List.mem_cons_of_mem _ hz))
      (fun z hz => hy z (List.mem_cons_of_mem _ hz)) (String.ext e2)
    rw [String.ext e1, ih]

/-- The characters `encode` puts out: unreserved ones, `%` and hexadecimal digits. -/
theorem encode_chars (s : String) {x : Char} (hx : x ∈ (encode s).data) :
    unreserved x = true ∨ x ∈ "%0123456789ABCDEF".data := by
  rw [encode_eq_reference] at hx
  simp only [rfc3986Encode] at hx
  obtain ⟨c, -, hc⟩ := List.mem_flatMap.1 hx
  by_cases hu : unreserved c = true
  · rw [if_pos hu, List.mem_singleton] at hc
    exact Or.inl (hc ▸ hu)
  · rw [if_neg hu] at hc
    exact Or.inr (escapes_mem hc)

theorem amp_not_mem_encode (s : String) : '&' ∉ (encode s).data := fun h =>
  (encode_chars s h).elim (by decide) (by decide)

theorem eq_not_mem_encode (s : String) : '=' ∉ (encode s).data := fun h =>
  (encode_chars s h).elim (by decide) (by decide)

theorem pair_data (k e : String) : (k ++ "=" ++ e).data = k.data ++ '=' :: e.data :=
  data_append_sep k e '='

/-- A pair `key=encode(value)` gives back its key and its value. -/
theorem pair_injective {k k' v v' : String} (hk : '=' ∉ k.data) (hk' : '=' ∉ k'.data)
    (h : k ++ "=" ++ encode v = k' ++ "=" ++ encode v') : k = k' ∧ v = v' := by
  have e := congrArg String.data h
  rw [pair_data, pair_data] at e
  obtain ⟨e1, e2⟩ := split_unique '=' _ _ _ _ hk hk' e
  exact ⟨String.ext e1, encode_injective (String.ext e2)⟩

theorem pair_plain {k : String} (v : String) (hk : '&' ∉ k.data) :
    '&' ∉ (k ++ "=" ++ encode v).data ∧ k ++ "=" ++ encode v ≠ "" := by
  rw [pair_data]
  refine ⟨?_, fun h => ?_⟩
  · simp only [List.mem_append, List.mem_cons, not_or]
    exact ⟨hk, by decide, amp_not_mem_encode v⟩
  · have := congrArg String.data h
    rw [pair_data] at this
    simp at this

theorem getL_of_stringValues {l : List (String × Val)} {k : String}
    (hv : ∀ e ∈ l, ∃ s, e.2 = Val.str s) (hk : k ∈ l.map Prod.fst) :
    ∃ s, Obj.getL l k = some (.str s) := by
  induction l with
  | nil => simp at hk
  | cons a t ih =>
    obtain ⟨k₀, v₀⟩ := a
    by_cases h0 : k₀ = k
    · obtain ⟨s, hs⟩ := hv (k₀, v₀) (List.mem_cons_self _ _)
      exact ⟨s, by simp only [Obj.getL, h0, if_true]; exact congrArg some hs⟩
    · have hk' : k ∈ t.map Prod.fst := by
        rw [List.map_cons, List.mem_cons] at hk
        exact hk.resolve_left (Ne.symm h0)
      obtain ⟨s, hs⟩ := ih (fun e he => hv e (List.mem_cons_of_mem _ he)) hk'
      exact ⟨s, by simp only [Obj.getL, h0, if_false, hs]⟩

/-- Two lists of keys that give the same list of pairs are the same list, and
the two objects agree on them. -/
theorem pairs_injective (p q : Obj) : ∀ (l₁ l₂ : List String),
    (∀ k ∈ l₁, '=' ∉ k.data ∧ ∃ s, p.get k = some (.str s)) →
    (∀ k ∈ l₂, '=' ∉ k.data ∧ ∃ s, q.get k = some (.str s)) →
    (l₁.map fun key => key ++ "=" ++ encode (toStr (p.get key)))
      = (l₂.map fun key => key ++ "=" ++ encode (toStr (q.get key))) →
    l₁ = l₂ ∧ ∀ k ∈ l₁, p.get k = q.get k
  | [], [], _, _, _ => ⟨rfl, fun _ hk => absurd hk (List.not_mem_nil _)⟩
  | [], _ :: _, _, _, h => by simp at h
  | _ :: _, [], _, _, h => by simp at h
  | a :: l₁, b :: l₂, h₁, h₂, h => by
    rw [List.map_cons, List.map_cons] at h
    obtain ⟨e1, e2⟩ := List.cons.inj h
    obtain ⟨ha, s, hs⟩ := h₁ a (List.mem_cons_self _ _)
    obtain ⟨hb, t, ht⟩ := h₂ b (List.mem_cons_self _ _)
    rw [hs, ht] at e1
    obtain ⟨eab, est⟩ := pair_injective ha hb e1
    have est' : s = t := est
    obtain ⟨el, hl⟩ := pairs_injective p q l₁ l₂
      (fun k hk => h₁ k (List.mem_cons_of_mem _ hk))
      (fun k hk => h₂ k (List.mem_cons_of_mem _ hk)) e2
    refine ⟨by rw [eab, el], fun k hk => ?_⟩
    rcases List.mem_cons.1 hk with rfl | hk'
    · rw [hs, eab, ht, est']
    · exact hl k hk'

/-- The canonical string determines the content of the parameter set. -/
theorem get_eq_of_parameterString_eq (url url' : String) (auth auth' : Credential)
    (p q : Obj) (hp : p.plainKeys) (hq : q.plainKeys) (vp : p.stringValues)
    (vq : q.stringValues)
    (h : parameterString url auth p = parameterString url' auth' q) (k : String) :
    p.get k = q.get k := by
  rw [parameterString_eq_map, parameterString_eq_map] at h
  have wp : ∀ k ∈ sort p.keys, '=' ∉ k.data ∧ ∃ s, p.get k = some (.str s) :=
    fun k hk => ⟨(hp k (mem_sort.1 hk)).2, getL_of_stringValues vp (mem_sort.1 hk)⟩
  have wq : ∀ k ∈ sort q.keys, '=' ∉ k.data ∧ ∃ s, q.get k = some (.str s) :=
    fun k hk => ⟨(hq k (mem_sort.1 hk)).2, getL_of_stringValues vq (mem_sort.1 hk)⟩
  have hmap := join_amp_injective _ _
    (fun x hx => by
      obtain ⟨k, hk, rfl⟩ := List.mem_map.1 hx
      exact pair_plain _ (hp k (mem_sort.1 hk)).1)
    (fun x hx => by
      obtain ⟨k, hk, rfl⟩ := List.mem_map.1 hx
      exact pair_plain _ (hq k (mem_sort.1 hk)).1) h
  obtain ⟨hkeys, hget⟩ := pairs_injective p q _ _ wp wq hmap
  by_cases hk : k ∈ p.keys
  · exact hget k (mem_sort.2 hk)
  · have hk' : k ∉ q.keys := fun m => hk (mem_sort.1 (hkeys ▸ mem_sort.2 m))
    rw [(Obj.get_eq_none p k).2 hk, (Obj.get_eq_none q k).2 hk']

theorem searchParamsGet_append (pre post : List (String × String)) (k s : String)
    (hpre : k ∉ pre.map Prod.fst) :
    searchParamsGet (pre ++ (k, s) :: post) k = .str s := by
  induction pre with
  | nil => simp [searchParamsGet]
  | cons a t ih =>
    obtain ⟨k₀, v₀⟩ := a
    rw [List.map_cons, List.mem_cons, not_or] at hpre
    have h0 : k₀ ≠ k := fun e => hpre.1 e.symm
    show searchParamsGet ((k₀, v₀) :: (t ++ (k, s) :: post)) k = _
    rw [searchParamsGet, if_neg h0, ih hpre.2]

/-- What the collected parameter set holds for a parameter of the body, or for
a parameter of the query that is the first of its name and that the body does
not supply. -/
theorem get_collected (fns : OAuthFunctions) (w : World) (auth : Credential)
    (sp : List (String × String)) (b : Obj) (hwf : b.WellFormed) {k : String} {v : Val}
    (hk : k ∉ protocolNames) (hp : k ≠ "__proto__")
    (h : (k ∈ b.keys ∧ b.get k = some v) ∨
      (k ∉ b.keys ∧ ∃ pre s post, sp = pre ++ (k, s) :: post ∧ k ∉ pre.map Prod.fst ∧
        v = .str s)) :
    (setProtocol fns w auth ((queryParams sp).assign b)).get k = some v := by
  rw [get_setProtocol_of_not_mem _ _ _ _ hk]
  rcases h with ⟨hkb, hv⟩ | ⟨hkb, pre, s, post, e, hpre, hv⟩
  · rw [Obj.get_assign_of_mem _ hwf hkb hp, hv]
  · have hkq : k ∈ sp.map Prod.fst := by
      rw [e]
      simp
    rw [Obj.get_assign_of_not_mem _ _ hkb, get_queryParams, if_pos ⟨hkq, hp⟩, e,
      searchParamsGet_append _ _ _ _ hpre, hv]

/-! ### Reading a header back -/

theorem splitOn_of_not_mem (sep : Char) (a : List Char) (h : sep ∉ a) :
    splitOn sep a = [a] := by
  induction a with
  | nil => rfl
  | cons c t ih =>
    have hc : c ≠ sep := fun e => h (e ▸ List.mem_cons_self _ _)
    rw [splitOn, if_neg hc, ih fun m => h (List.mem_cons_of_mem _ m)]

theorem splitOn_append (sep : Char) (a r : List Char) (h : sep ∉ a) :
    splitOn sep (a ++ sep :: r) = a :: splitOn sep r := by
  induction a with
  | nil => rw [List.nil_append, splitOn, if_pos rfl]
  | cons c t ih =>
    have hc : c ≠ sep := fun e => h (e ▸ List.mem_cons_self _ _)
    rw [List.cons_append, splitOn, if_neg hc, ih fun m => h (List.mem_cons_of_mem _ m)]

theorem join_data_cons_cons (a b : String) (rest : List String) :
    (join ", " (a :: b :: rest)).data = a.data ++ ',' :: ' ' :: (join ", " (b :: rest)).data := by
  show (a ++ ", " ++ join ", " (b :: rest)).data = _
  simp [String.data_append]

/-- Cutting the joined entries at the commas gives the entries back, each but
the first after a space. -/
theorem splitOn_join : ∀ (e : String) (es : List String),
    (∀ x ∈ e :: es, ',' ∉ x.data) →
    splitOn ',' (join ", " (e :: es)).data = e.data :: es.map fun x => ' ' :: x.data
  | e, [], h => splitOn_of_not_mem _ _ (h e (List.mem_cons_self _ _))
  | e, e' :: es, h => by
    rw [join_data_cons_cons, splitOn_append _ _ _ (h e (List.mem_cons_self _ _)), splitOn,
      if_neg (by decide), splitOn_join e' es fun x hx => h x (List.mem_cons_of_mem _ hx)]
    rfl

theorem beforeEq_append (a r : List Char) (h : '=' ∉ a) :
    beforeEq (a ++ '=' :: r) = a := by
  induction a with
  | nil => rw [List.nil_append, beforeEq, if_pos rfl]
  | cons c t ih =>
    have hc : c ≠ '=' := fun e => h (e ▸ List.mem_cons_self _ _)
    rw [List.cons_append, beforeEq, if_neg hc, ih fun m => h (List.mem_cons_of_mem _ m)]

theorem afterEq_append (a r : List Char) (h : '=' ∉ a) :
    afterEq (a ++ '=' :: r) = r := by
  induction a with
  | nil => rw [List.nil_append, afterEq, if_pos rfl]
  | cons c t ih =>
    have hc : c ≠ '=' := fun e => h (e ▸ List.mem_cons_self _ _)
    rw [List.cons_append, afterEq, if_neg hc, ih fun m => h (List.mem_cons_of_mem _ m)]

theorem dropSpace_of_head {c : Char} {t : List Char} (h : c ≠ ' ') :
    dropSpace (c :: t) = c :: t := by
  rw [dropSpace, if_neg h]

theorem dropSpace_space (t : List Char) : dropSpace (' ' :: t) = t := by
  rw [dropSpace, if_pos rfl]

theorem filter_eq_singleton {l : List String} {a : String} (hn : l.Nodup) (ha : a ∈ l) :
    l.filter (fun x => decide (x = a)) = [a] := by
  rw [List.filter_eq, List.count_eq_one_of_mem hn ha]
  rfl

theorem entry_data (k v : String) :
    (k ++ "=\"" ++ v ++ "\"").data = k.data ++ '=' :: ("\"" ++ v ++ "\"").data := by
  simp [String.data_append]

/-- A piece that is one entry `key="value"` is cut into its key and its quoted
value. -/
theorem piece_entry (k v : String) (hk : '=' ∉ k.data) (hs : dropSpace k.data = k.data) :
    ((String.mk (beforeEq (dropSpace (k ++ "=\"" ++ v ++ "\"").data)),
      String.mk (afterEq (dropSpace (k ++ "=\"" ++ v ++ "\"").data))) : String × String)
      = (k, "\"" ++ v ++ "\"") := by
  have hd : dropSpace (k ++ "=\"" ++ v ++ "\"").data = (k ++ "=\"" ++ v ++ "\"").data := by
    rw [entry_data]
    cases hkd : k.data with
    | nil => rfl
    | cons c t =>
      rw [hkd] at hs
      by_cases hc : c = ' '
      · rw [dropSpace, if_pos hc] at hs
        exact absurd (congrArg List.length hs) (by simp)
      · rw [List.cons_append, dropSpace, if_neg hc]
  rw [hd, entry_data, beforeEq_append _ _ hk, afterEq_append _ _ hk]

theorem startsWith_oauth {k : String} (h : startsWith k "oauth_" = true) :
    dropSpace k.data = k.data := by
  unfold startsWith at h
  cases hkd : k.data with
  | nil => rfl
  | cons c t =>
    rw [hkd] at h
    have hc : c = 'o' := by
      have h2 : ('o' == c && List.isPrefixOf "auth_".data t) = true := h
      simp only [Bool.and_eq_true, beq_iff_eq] at h2
      exact h2.1.symm
    rw [hc]
    exact dropSpace_of_head (by decide)

/-- The entries read back from a header are the keys with their quoted values,
when no key contains `,` or `=` or begins with a space and no value contains
`,`. -/
theorem headerEntries_header (val : String → String) : ∀ (ks : List String), ks ≠ [] →
    (∀ k ∈ ks, ',' ∉ k.data ∧ '=' ∉ k.data ∧ dropSpace k.data = k.data ∧
      ',' ∉ (val k).data) →
    headerEntries ("OAuth " ++ join ", " (ks.map fun k => k ++ "=\"" ++ val k ++ "\""))
      = ks.map fun k => (k, "\"" ++ val k ++ "\"")
  | [], h, _ => absurd rfl h
  | e :: es, _, h => by
    have hcomma : ∀ x ∈ (e :: es).map (fun k => k ++ "=\"" ++ val k ++ "\""),
        ',' ∉ x.data := by
      intro x hx
      obtain ⟨k, hk, rfl⟩ := List.mem_map.1 hx
      obtain ⟨h1, -, -, h4⟩ := h k hk
      rw [entry_data]
      simp only [String.data_append, List.mem_append, List.mem_cons, not_or]
      exact ⟨h1, by decide, ⟨by decide, h4⟩, by decide⟩
    have hdrop : (("OAuth " : String) ++ join ", "
        ((e :: es).map fun k => k ++ "=\"" ++ val k ++ "\"")).data.drop 6
        = (join ", " ((e :: es).map fun k => k ++ "=\"" ++ val k ++ "\"")).data := by
      rw [String.data_append]
      rfl
    unfold headerEntries
    rw [hdrop, List.map_cons, splitOn_join _ _ hcomma,
      List.map_cons, List.map_cons, List.map_map, List.map_map]
    congr 1
    · exact piece_entry e (val e) (h e (List.mem_cons_self _ _)).2.1
        (h e (List.mem_cons_self _ _)).2.2.1
    · refine List.map_congr_left fun k hk => ?_
      have hk' := h k (List.mem_cons_of_mem _ hk)
      simp only [Function.comp, dropSpace_space]
      rw [entry_data, beforeEq_append _ _ hk'.2.1, afterEq_append _ _ hk'.2.1]

theorem comma_not_mem_encode (s : String) : ',' ∉ (encode s).data := fun h =>
  (encode_chars s h).elim (by decide) (by decide)

/-- The entries read back from what `header` returns, when no key that starts
with `oauth_` contains `,` or `=`. -/
theorem headerEntries_of_plain (url : String) (auth : Auth) (signature : String)
    (params : Obj)
    (hk : ∀ k ∈ params.keys, startsWith k "oauth_" = true → ',' ∉ k.data ∧ '=' ∉ k.data) :
    headerEntries (header url auth signature params).1
      = ((sort (params.set "oauth_signature" (.str signature)).keys).filter
          fun key => startsWith key "oauth_").map fun key =>
            (key, "\"" ++
              encode (toStr ((params.set "oauth_signature" (.str signature)).get key))
              ++ "\"") := by
  rw [header_eq]
  refine headerEntries_header
    (fun key => encode (toStr ((params.set "oauth_signature" (.str signature)).get key)))
    _ ?_ ?_
  · intro h0
    have hm : "oauth_signature" ∈ (sort (params.set "oauth_signature"
        (.str signature)).keys).filter fun key => startsWith key "oauth_" := by
      rw [List.mem_filter, mem_sort, Obj.mem_keys_set]
      exact ⟨Or.inl rfl, by decide⟩
    rw [h0] at hm
    exact absurd hm (List.not_mem_nil _)
  · intro k hkm
    rw [List.mem_filter, mem_sort, Obj.mem_keys_set] at hkm
    obtain ⟨hmem, hpre⟩ := hkm
    have hplain : ',' ∉ k.data ∧ '=' ∉ k.data := by
      rcases hmem with rfl | hmem
      · decide
      · exact hk k hmem hpre
    exact ⟨hplain.1, hplain.2, startsWith_oauth hpre, comma_not_mem_encode _⟩

/-! ### The claims -/

/-- C2, as stated, fails: on the parameter set `{"a b": "1"}` the code emits
the key as it is (`a b=1`), where the claim has it percent-encoded (`a%20b=1`). -/
theorem parameterString_key_not_encoded :
    parameterString "" sampleAuth ⟨[("a b", .str "1")]⟩ = "a b=1" ∧
      canonicalParameterString ⟨[("a b", .str "1")]⟩ = "a%20b=1" ∧
      parameterString "" sampleAuth ⟨[("a b", .str "1")]⟩
        ≠ canonicalParameterString ⟨[("a b", .str "1")]⟩ := by
  decide

/-- C2, amended: for every parameter set, `parameterString` returns the
`&`-join, over the keys in sorted order, of the pairs
`key + "=" + encode(value)`: the value of every pair is percent-encoded, the
key is emitted as it is. -/
theorem parameterString_pairs (url : String) (auth : Credential) (params : Obj) :
    parameterString url auth params
      = join "&" ((sort params.keys).map fun key =>
          key ++ "=" ++ encode (toStr (params.get key))) :=
  parameterString_eq_map url auth params

/-- C3: `parameterString` does not depend on insertion order: two parameter
sets whose entries are a permutation of one another give the same string. -/
theorem parameterString_perm (url : String) (auth : Credential) (p q : Obj)
    (hp : p.WellFormed) (h : p.entries.Perm q.entries) :
    parameterString url auth p = parameterString url auth q := by
  rw [parameterString_eq_map, parameterString_eq_map]
  have hk : sort p.keys = sort q.keys := sort_eq_of_perm (h.map Prod.fst)
  rw [hk]
  congr 1
  refine List.map_congr_left fun k _ => ?_
  have : p.get k = q.get k := getL_perm h hp k
  rw [this]

/-- C3 on the sample of the specification: `{b: "2", a: "1"}` and
`{a: "1", b: "2"}` both give `a=1&b=2`. -/
theorem parameterString_perm_witness :
    (Obj.mk [("b", .str "2"), ("a", .str "1")]).WellFormed ∧
      parameterString "" sampleAuth ⟨[("b", .str "2"), ("a", .str "1")]⟩
        = parameterString "" sampleAuth ⟨[("a", .str "1"), ("b", .str "2")]⟩ ∧
      parameterString "" sampleAuth ⟨[("a", .str "1"), ("b", .str "2")]⟩ = "a=1&b=2" :=
  ⟨by decide,
    parameterString_perm "" sampleAuth ⟨[("b", .str "2"), ("a", .str "1")]⟩
      ⟨[("a", .str "1"), ("b", .str "2")]⟩ (by decide) (List.Perm.swap _ _ _),
    by decide⟩

/-- C4, as stated, fails: with the keys U+FF5E and U+1F600 the code emits
U+1F600 first (its first UTF-16 code unit, 0xD83D, is below 0xFF5E), although
byte-wise U+1F600 (F0 9F 98 80) comes after U+FF5E (EF BD 9E). -/
theorem parameterString_not_bytewise :
    parameterString "" sampleAuth
        ⟨[(fullwidthTilde, .str "1"), (grinningFace, .str "2")]⟩
      = grinningFace ++ "=2&" ++ fullwidthTilde ++ "=1" ∧
      sort [fullwidthTilde, grinningFace] = [grinningFace, fullwidthTilde] ∧
      utf8 fullwidthTilde = [0xEF, 0xBD, 0x9E] ∧
      utf8 grinningFace = [0xF0, 0x9F, 0x98, 0x80] ∧
      ¬ bytesLe grinningFace fullwidthTilde := by
  decide

/-- C4, amended: for every parameter set, the keys of the pairs emitted by
`parameterString` are the keys of the set in strictly ascending lexicographic
order of their UTF-16 code units (case-sensitive, on the raw key strings);
when all keys are ASCII this is the byte-wise order. -/
theorem parameterString_keys_ascending (url : String) (auth : Credential) (params : Obj)
    (h : params.WellFormed) :
    parameterString url auth params
        = join "&" ((sort params.keys).map fun key =>
            key ++ "=" ++ encode (toStr (params.get key))) ∧
      (sort params.keys).Perm params.keys ∧
      (sort params.keys).Pairwise (fun a b => strLe a b ∧ a ≠ b) ∧
      ((∀ k ∈ params.keys, isAscii k) →
        (sort params.keys).Pairwise (fun a b => bytesLe a b ∧ a ≠ b)) := by
  refine ⟨parameterString_eq_map url auth params, sort_perm _, sort_strict h, fun ha => ?_⟩
  refine List.Pairwise.imp_of_mem ?_ (sort_strict h)
  intro a b hma hmb hab
  refine ⟨?_, hab.2⟩
  unfold bytesLe
  rw [utf8_eq_utf16_of_isAscii (ha a (mem_sort.1 hma)),
    utf8_eq_utf16_of_isAscii (ha b (mem_sort.1 hmb))]
  exact hab.1

/-- C4 on the parameter set `{b: "2", a: "1", B: "3"}`: the keys come out as
`B`, `a`, `b`. -/
theorem parameterString_keys_ascending_witness :
    (Obj.mk [("b", .str "2"), ("a", .str "1"), ("B", .str "3")]).WellFormed ∧
      sort (Obj.mk [("b", .str "2"), ("a", .str "1"), ("B", .str "3")]).keys
        = ["B", "a", "b"] ∧
      (sort (Obj.mk [("b", .str "2"), ("a", .str "1"), ("B", .str "3")]).keys).Pairwise
        (fun a b => strLe a b ∧ a ≠ b) :=
  ⟨by decide, by decide,
    (parameterString_keys_ascending "" sampleAuth
      ⟨[("b", .str "2"), ("a", .str "1"), ("B", .str "3")]⟩ (by decide)).2.2.1⟩

/-- C5: protocol parameters always win: whenever `parameters` has inputs it
accepts (the URL parses, the body is omitted, a string or an object), it returns
a parameter set that maps the six protocol names to the credential's consumer
key and token, the providers' nonce and timestamp, `HMAC-SHA1` and `1.0`,
whatever the query string and the body hold under these names. -/
theorem parameters_protocol_wins (rt : Runtime) (fns : OAuthFunctions) (w : World)
    (url : String) (auth : Credential) (body : Body) (u : URLObject) (b : Obj)
    (hu : rt.newURL url = some u) (hb : bodyObject rt body = .ok b) :
    ∃ p, parameters rt fns w url auth body = .ok p ∧
      p.get "oauth_consumer_key" = some (.str auth.consumer_key) ∧
      p.get "oauth_token" = some (.str auth.token) ∧
      p.get "oauth_nonce" = some (.str (fns.nonceFn w)) ∧
      p.get "oauth_timestamp" = some (.str (fns.timestampFn w)) ∧
      p.get "oauth_signature_method" = some (.str "HMAC-SHA1") ∧
      p.get "oauth_version" = some (.str "1.0") :=
  ⟨_, parameters_eq_ok rt fns w url auth body hu hb, get_setProtocol fns w auth _⟩

/-- C5 on the sample of the specification: with the body `oauth_token=evil`
the parameter set holds the credential's token `tk`. -/
theorem parameters_protocol_wins_witness :
    sampleRuntime.newURL "https://api.example.com/1/statuses/update.json?a=1&a=2&b=3"
        = some sampleURL ∧
      bodyObject sampleRuntime (.string "oauth_token=evil")
        = .ok ⟨[("oauth_token", .str "evil")]⟩ ∧
      ∃ p, parameters sampleRuntime sampleFns sampleWorld
          "https://api.example.com/1/statuses/update.json?a=1&a=2&b=3" sampleAuth
          (.string "oauth_token=evil") = .ok p ∧
        p.get "oauth_consumer_key" = some (.str "ck") ∧
        p.get "oauth_token" = some (.str "tk") ∧
        p.get "oauth_nonce" = some (.str "kYjzVBB8Y0ZFabxSWbWovY3uYSQ2pTgmZeNu2VS4cg") ∧
        p.get "oauth_timestamp" = some (.str "1318622958") ∧
        p.get "oauth_signature_method" = some (.str "HMAC-SHA1") ∧
        p.get "oauth_version" = some (.str "1.0") :=
  ⟨rfl, rfl,
    parameters_protocol_wins sampleRuntime sampleFns sampleWorld
      "https://api.example.com/1/statuses/update.json?a=1&a=2&b=3" sampleAuth
      (.string "oauth_token=evil") sampleURL ⟨[("oauth_token", .str "evil")]⟩ rfl rfl⟩

/-- C6, as stated, fails at the key `__proto__`, which is not a protocol name:
with the query `__proto__=1&__proto__=2&b=3` the claim has the key hold the
query's value, and with the body `{"__proto__": "1"}` the body's value, but the
parameter set `parameters` returns has no such key. -/
theorem parameters_drops_proto_key :
    "__proto__" ∉ protocolNames ∧
      (∃ p, parameters sampleRuntime sampleFns sampleWorld
          "https://api.example.com/1/statuses/update.json?__proto__=1&__proto__=2&b=3"
          sampleAuth .undefined = .ok p ∧
        p.get "__proto__" = none ∧ p.get "b" = some (.str "3")) ∧
      (∃ p, parameters sampleRuntime sampleFns sampleWorld
          "https://api.example.com/1/statuses/update.json?a=1&a=2&b=3" sampleAuth
          (.object ⟨[("__proto__", .str "1")]⟩) = .ok p ∧
        p.get "__proto__" = none ∧
        (Obj.mk [("__proto__", .str "1")]).get "__proto__" = some (.str "1")) :=
  ⟨by decide, ⟨_, rfl, by decide, by decide⟩, ⟨_, rfl, by decide, by decide⟩⟩

/-- C6, amended: for a key that is neither a protocol name nor `__proto__`, the
parameter set returned by `parameters` holds the body's value when the body has
the key (also when the query has it too), the query's value when only the
query has it, and does not have the key when neither has it. -/
theorem parameters_merge (rt : Runtime) (fns : OAuthFunctions) (w : World)
    (url : String) (auth : Credential) (body : Body) (u : URLObject) (b : Obj) (k : String)
    (hu : rt.newURL url = some u) (hb : bodyObject rt body = .ok b)
    (hwf : b.WellFormed) (hk : k ∉ protocolNames) (hp : k ≠ "__proto__") :
    ∃ p, parameters rt fns w url auth body = .ok p ∧
      (k ∈ b.keys → p.get k = b.get k) ∧
      (k ∉ b.keys → k ∈ u.searchParams.map Prod.fst →
        p.get k = some (searchParamsGet u.searchParams k)) ∧
      (k ∉ b.keys → k ∉ u.searchParams.map Prod.fst → p.get k = none ∧ k ∉ p.keys) := by
  refine ⟨_, parameters_eq_ok rt fns w url auth body hu hb, ?_, ?_, ?_⟩
  · intro hkb
    rw [get_setProtocol_of_not_mem _ _ _ _ hk, Obj.get_assign_of_mem _ hwf hkb hp]
  · intro hkb hkq
    rw [get_setProtocol_of_not_mem _ _ _ _ hk, Obj.get_assign_of_not_mem _ _ hkb,
      get_queryParams, if_pos ⟨hkq, hp⟩]
  · intro hkb hkq
    have hn : k ∉ (setProtocol fns w auth ((queryParams u.searchParams).assign b)).keys := by
      rw [mem_keys_setProtocol, Obj.mem_keys_assign, mem_keys_queryParams]
      tauto
    exact ⟨(Obj.get_eq_none _ _).2 hn, hn⟩

/-- C6 on a query `a=1&a=2&b=3` and a body `{b: "9"}`: the key `b`, which both
have, holds the body's `9`. -/
theorem parameters_merge_witness :
    sampleRuntime.newURL "https://api.example.com/1/statuses/update.json?a=1&a=2&b=3"
        = some sampleURL ∧
      bodyObject sampleRuntime (.object ⟨[("b", .str "9")]⟩) = .ok ⟨[("b", .str "9")]⟩ ∧
      (Obj.mk [("b", .str "9")]).WellFormed ∧ "b" ∉ protocolNames ∧ "b" ≠ "__proto__" ∧
      ∃ p, parameters sampleRuntime sampleFns sampleWorld
          "https://api.example.com/1/statuses/update.json?a=1&a=2&b=3" sampleAuth
          (.object ⟨[("b", .str "9")]⟩) = .ok p ∧
        p.get "b" = some (.str "9") :=
  ⟨rfl, rfl, by decide, by decide, by decide,
    (parameters_merge sampleRuntime sampleFns sampleWorld
      "https://api.example.com/1/statuses/update.json?a=1&a=2&b=3" sampleAuth
      (.object ⟨[("b", .str "9")]⟩) sampleURL ⟨[("b", .str "9")]⟩ "b" rfl rfl
      (by decide) (by decide) (by decide)).imp fun _ h => ⟨h.1, h.2.1 (by decide)⟩⟩

/-- C7, as stated, fails: for the query `a=1&a=2&b=3` the parameter set holds
under `a` the value `1` of the first occurrence, not the `2` of the last; and
for the query `__proto__=1&__proto__=2&b=3` it holds nothing under the repeated
key `__proto__`. -/
theorem parameters_repeated_key_not_last :
    (∃ p, parameters sampleRuntime sampleFns sampleWorld
        "https://api.example.com/1/statuses/update.json?a=1&a=2&b=3" sampleAuth .undefined
        = .ok p ∧
      p.get "a" = some (.str "1") ∧
      searchParamsLast sampleURL.searchParams "a" = .str "2" ∧
      p.get "a" ≠ some (searchParamsLast sampleURL.searchParams "a")) ∧
    ∃ p, parameters sampleRuntime sampleFns sampleWorld
        "https://api.example.com/1/statuses/update.json?__proto__=1&__proto__=2&b=3"
        sampleAuth .undefined = .ok p ∧
      p.get "__proto__" = none ∧
      searchParamsLast [("__proto__", "1"), ("__proto__", "2"), ("b", "3")] "__proto__"
        = .str "2" :=
  ⟨⟨_, rfl, by decide, by decide, by decide⟩, ⟨_, rfl, by decide, by decide⟩⟩

/-- C7, amended: when the query string has a key other than `__proto__`,
repeated or not, that neither the body nor the protocol parameters override,
the parameter set returned by `parameters` holds for that key the value of its
first occurrence in the query string. -/
theorem parameters_repeated_key_first (rt : Runtime) (fns : OAuthFunctions) (w : World)
    (url : String) (auth : Credential) (body : Body) (u : URLObject) (b : Obj) (k : String)
    (hu : rt.newURL url = some u) (hb : bodyObject rt body = .ok b)
    (hkq : k ∈ u.searchParams.map Prod.fst) (hkb : k ∉ b.keys) (hk : k ∉ protocolNames)
    (hp : k ≠ "__proto__") :
    ∃ p, parameters rt fns w url auth body = .ok p ∧
      ∃ pre v post, u.searchParams = pre ++ (k, v) :: post ∧ k ∉ pre.map Prod.fst ∧
        p.get k = some (.str v) := by
  refine ⟨_, parameters_eq_ok rt fns w url auth body hu hb, ?_⟩
  obtain ⟨pre, v, post, e, hpre, hv⟩ := searchParamsGet_first u.searchParams k hkq
  refine ⟨pre, v, post, e, hpre, ?_⟩
  rw [get_setProtocol_of_not_mem _ _ _ _ hk, Obj.get_assign_of_not_mem _ _ hkb,
    get_queryParams, if_pos ⟨hkq, hp⟩, hv]

/-- C7 on the query `a=1&a=2&b=3`: the key `a` holds `1`. -/
theorem parameters_repeated_key_first_witness :
    sampleRuntime.newURL "https://api.example.com/1/statuses/update.json?a=1&a=2&b=3"
        = some sampleURL ∧
      bodyObject sampleRuntime .undefined = .ok Obj.empty ∧
      "a" ∈ sampleURL.searchParams.map Prod.fst ∧ "a" ∉ Obj.empty.keys ∧
      "a" ∉ protocolNames ∧ "a" ≠ "__proto__" ∧
      ∃ p, parameters sampleRuntime sampleFns sampleWorld
          "https://api.example.com/1/statuses/update.json?a=1&a=2&b=3" sampleAuth .undefined
          = .ok p ∧
        ∃ pre v post, sampleURL.searchParams = pre ++ ("a", v) :: post ∧
          "a" ∉ pre.map Prod.fst ∧ p.get "a" = some (.str v) :=
  ⟨rfl, rfl, by decide, by decide, by decide, by decide,
    parameters_repeated_key_first sampleRuntime sampleFns sampleWorld
      "https://api.example.com/1/statuses/update.json?a=1&a=2&b=3" sampleAuth .undefined
      sampleURL Obj.empty "a" rfl rfl (by decide) (by decide) (by decide) (by decide)⟩

/-- C8: when neither the query string nor the body has a key that starts with
`oauth_`, `oauth` returns exactly `OAuth ` followed by these seven entries, in
this order, joined by `, `: consumer key, nonce, signature (the HMAC-SHA1
signature of the base string under the signing key), signature method,
timestamp, token and version, each value percent-encoded. -/
theorem oauth_header_exact (rt : Runtime) (fns : OAuthFunctions) (w : World)
    (url method : String) (auth : Credential) (body : Body) (u : URLObject) (b : Obj)
    (hu : rt.newURL url = some u) (hb : bodyObject rt body = .ok b)
    (hq : ∀ k ∈ u.searchParams.map Prod.fst, startsWith k "oauth_" = false)
    (hbk : ∀ k ∈ b.keys, startsWith k "oauth_" = false) :
    ∃ params baseString,
      parameters rt fns w url auth body = .ok params ∧
      signatureBaseString rt url method (parameterString url auth params) = .ok baseString ∧
      oauth rt fns w url method auth body
        = .ok ("OAuth " ++ join ", "
            ["oauth_consumer_key=\"" ++ encode auth.consumer_key ++ "\"",
              "oauth_nonce=\"" ++ encode (fns.nonceFn w) ++ "\"",
              "oauth_signature=\"" ++
                encode (hmacSha1Signature rt baseString (createSigningKey auth)) ++ "\"",
              "oauth_signature_method=\"HMAC-SHA1\"",
              "oauth_timestamp=\"" ++ encode (fns.timestampFn w) ++ "\"",
              "oauth_token=\"" ++ encode auth.token ++ "\"",
              "oauth_version=\"1.0\""]) := by
  refine ⟨_, _, parameters_eq_ok rt fns w url auth body hu hb,
    signatureBaseString_eq_ok rt url method _ hu, ?_⟩
  rw [oauth_eq_ok rt fns w url method auth body hu hb, header_eq,
    headerKeys_of_no_oauth fns w auth u.searchParams b _ hq hbk]
  obtain ⟨g1, g2, g3, g4, g5, g6⟩ :=
    get_setProtocol fns w auth ((queryParams u.searchParams).assign b)
  simp only [List.map_cons, List.map_nil, Obj.get_set_self]
  rw [Obj.get_set_ne _ _ (by decide), Obj.get_set_ne _ _ (by decide),
    Obj.get_set_ne _ _ (by decide), Obj.get_set_ne _ _ (by decide),
    Obj.get_set_ne _ _ (by decide), Obj.get_set_ne _ _ (by decide),
    g1, g2, g3, g4, g5, g6]
  rfl

set_option maxRecDepth 100000 in
/-- C8 on a query `a=1&a=2&b=3` and a body `status=hello`. -/
theorem oauth_header_exact_witness :
    sampleRuntime.newURL "https://api.example.com/1/statuses/update.json?a=1&a=2&b=3"
        = some sampleURL ∧
      bodyObject sampleRuntime (.string "status=hello") = .ok ⟨[("status", .str "hello")]⟩ ∧
      (∀ k ∈ sampleURL.searchParams.map Prod.fst, startsWith k "oauth_" = false) ∧
      (∀ k ∈ (Obj.mk [("status", .str "hello")]).keys, startsWith k "oauth_" = false) ∧
      (∃ params baseString,
        parameters sampleRuntime sampleFns sampleWorld
          "https://api.example.com/1/statuses/update.json?a=1&a=2&b=3" sampleAuth
          (.string "status=hello") = .ok params ∧
        signatureBaseString sampleRuntime
          "https://api.example.com/1/statuses/update.json?a=1&a=2&b=3" "post"
          (parameterString "https://api.example.com/1/statuses/update.json?a=1&a=2&b=3"
            sampleAuth params) = .ok baseString ∧
        oauth sampleRuntime sampleFns sampleWorld
          "https://api.example.com/1/statuses/update.json?a=1&a=2&b=3" "post" sampleAuth
          (.string "status=hello")
          = .ok ("OAuth " ++ join ", "
              ["oauth_consumer_key=\"" ++ encode sampleAuth.consumer_key ++ "\"",
                "oauth_nonce=\"" ++ encode (sampleFns.nonceFn sampleWorld) ++ "\"",
                "oauth_signature=\"" ++
                  encode (hmacSha1Signature sampleRuntime baseString
                    (createSigningKey sampleAuth)) ++ "\"",
                "oauth_signature_method=\"HMAC-SHA1\"",
                "oauth_timestamp=\"" ++ encode (sampleFns.timestampFn sampleWorld) ++ "\"",
                "oauth_token=\"" ++ encode sampleAuth.token ++ "\"",
                "oauth_version=\"1.0\""])) ∧
      oauth sampleRuntime sampleFns sampleWorld
        "https://api.example.com/1/statuses/update.json?a=1&a=2&b=3" "post" sampleAuth
        (.string "status=hello")
        = .ok "OAuth oauth_consumer_key=\"ck\", oauth_nonce=\"kYjzVBB8Y0ZFabxSWbWovY3uYSQ2pTgmZeNu2VS4cg\", oauth_signature=\"tnnArxj06cWHq44gCs1OSKk%2FjLY%3D\", oauth_signature_method=\"HMAC-SHA1\", oauth_timestamp=\"1318622958\", oauth_token=\"tk\", oauth_version=\"1.0\"" :=
  ⟨rfl, rfl, by decide, by decide,
    oauth_header_exact sampleRuntime sampleFns sampleWorld
      "https://api.example.com/1/statuses/update.json?a=1&a=2&b=3" "post" sampleAuth
      (.string "status=hello") sampleURL ⟨[("status", .str "hello")]⟩ rfl rfl
      (by decide) (by decide),
    rfl⟩

/-- C9: the keys `header` emits are exactly the keys of the parameter set, after
`oauth_signature` has been set, that start with `oauth_`, in ascending sorted
order, each once: a key without the prefix (`status`, `OAuth_x`, `oauth`) is
never emitted, a key with it always is. -/
theorem header_emits_oauth_keys (url : String) (auth : Credential) (signature : String)
    (params : Obj) (h : params.WellFormed) :
    (header url auth signature params).2 = params.set "oauth_signature" (.str signature) ∧
      (header url auth signature params).1
        = "OAuth " ++ join ", "
            ((sort ((params.set "oauth_signature" (.str signature)).keys.filter
                fun key => startsWith key "oauth_")).map fun key =>
              key ++ "=\"" ++
                encode (toStr ((params.set "oauth_signature" (.str signature)).get key))
                ++ "\"") ∧
      (sort ((params.set "oauth_signature" (.str signature)).keys.filter
          fun key => startsWith key "oauth_")).Pairwise (fun a b => strLe a b ∧ a ≠ b) ∧
      (∀ k, k ∈ sort ((params.set "oauth_signature" (.str signature)).keys.filter
            fun key => startsWith key "oauth_")
          ↔ k ∈ (params.set "oauth_signature" (.str signature)).keys ∧
            startsWith k "oauth_" = true) ∧
      startsWith "status" "oauth_" = false ∧ startsWith "OAuth_x" "oauth_" = false ∧
      startsWith "oauth" "oauth_" = false := by
  refine ⟨by rw [header_eq], by rw [header_eq, filter_sort], ?_, fun k => ?_,
    by decide, by decide, by decide⟩
  · exact sort_strict (List.Nodup.filter _ (Obj.wellFormed_set h _ _))
  · rw [mem_sort, List.mem_filter]

/-- C9 on the parameter set
`{status: "hello", oauth_token: "tk", OAuth_x: "1", oauth: "2"}`: the header has
`oauth_signature` and `oauth_token`, nothing else. -/
theorem header_emits_oauth_keys_witness :
    (Obj.mk [("status", .str "hello"), ("oauth_token", .str "tk"), ("OAuth_x", .str "1"),
        ("oauth", .str "2")]).WellFormed ∧
      (header "" sampleAuth "sig"
        ⟨[("status", .str "hello"), ("oauth_token", .str "tk"), ("OAuth_x", .str "1"),
          ("oauth", .str "2")]⟩).1
        = "OAuth oauth_signature=\"sig\", oauth_token=\"tk\"" ∧
      sort (((Obj.mk [("status", .str "hello"), ("oauth_token", .str "tk"),
          ("OAuth_x", .str "1"), ("oauth", .str "2")]).set "oauth_signature"
            (.str "sig")).keys.filter fun key => startsWith key "oauth_")
        = ["oauth_signature", "oauth_token"] ∧
      ∀ k, k ∈ sort (((Obj.mk [("status", .str "hello"), ("oauth_token", .str "tk"),
            ("OAuth_x", .str "1"), ("oauth", .str "2")]).set "oauth_signature"
              (.str "sig")).keys.filter fun key => startsWith key "oauth_")
          ↔ k ∈ ((Obj.mk [("status", .str "hello"), ("oauth_token", .str "tk"),
              ("OAuth_x", .str "1"), ("oauth", .str "2")]).set "oauth_signature"
                (.str "sig")).keys ∧
            startsWith k "oauth_" = true :=
  ⟨by decide, by decide, by decide,
    (header_emits_oauth_keys "" sampleAuth "sig"
      ⟨[("status", .str "hello"), ("oauth_token", .str "tk"), ("OAuth_x", .str "1"),
        ("oauth", .str "2")]⟩ (by decide)).2.2.2.1⟩

set_option maxRecDepth 100000 in
/-- C10, as stated, fails, in both halves. The body parameter
`oauth_callback=x` is emitted in the returned header. And not every parameter
takes part in the string that is signed: of the query `a=1&a=2&b=3` the
parameter `a=2` does not; with the body `{b: "9"}` the query parameter `b=3`
does not; with the body `oauth_token=evil` that parameter does not; of the
query `__proto__=1&__proto__=2&b=3` no `__proto__` parameter does. -/
theorem oauth_emits_body_parameter :
    (bodyObject sampleRuntime (.string "oauth_callback=x")
        = .ok ⟨[("oauth_callback", .str "x")]⟩ ∧
      oauth sampleRuntime sampleFns sampleWorld
        "https://api.example.com/1/statuses/update.json?a=1&a=2&b=3" "post" sampleAuth
        (.string "oauth_callback=x")
        = .ok "OAuth oauth_callback=\"x\", oauth_consumer_key=\"ck\", oauth_nonce=\"kYjzVBB8Y0ZFabxSWbWovY3uYSQ2pTgmZeNu2VS4cg\", oauth_signature=\"tnnArxj06cWHq44gCs1OSKk%2FjLY%3D\", oauth_signature_method=\"HMAC-SHA1\", oauth_timestamp=\"1318622958\", oauth_token=\"tk\", oauth_version=\"1.0\"") ∧
    (∃ params, parameters sampleRuntime sampleFns sampleWorld
        "https://api.example.com/1/statuses/update.json?a=1&a=2&b=3" sampleAuth .undefined
        = .ok params ∧
      parameterString "" sampleAuth params
        = "a=1&b=3&oauth_consumer_key=ck&oauth_nonce=kYjzVBB8Y0ZFabxSWbWovY3uYSQ2pTgmZeNu2VS4cg&oauth_signature_method=HMAC-SHA1&oauth_timestamp=1318622958&oauth_token=tk&oauth_version=1.0" ∧
      "a=2" ∉ signedPairs params) ∧
    (∃ params, parameters sampleRuntime sampleFns sampleWorld
        "https://api.example.com/1/statuses/update.json?a=1&a=2&b=3" sampleAuth
        (.object ⟨[("b", .str "9")]⟩) = .ok params ∧
      "b=3" ∉ signedPairs params) ∧
    (∃ params, parameters sampleRuntime sampleFns sampleWorld
        "https://api.example.com/1/statuses/update.json?a=1&a=2&b=3" sampleAuth
        (.string "oauth_token=evil") = .ok params ∧
      "oauth_token=evil" ∉ signedPairs params) ∧
    ∃ params, parameters sampleRuntime sampleFns sampleWorld
        "https://api.example.com/1/statuses/update.json?__proto__=1&__proto__=2&b=3"
        sampleAuth .undefined = .ok params ∧
      "__proto__=1" ∉ signedPairs params ∧ "__proto__=2" ∉ signedPairs params :=
  ⟨⟨rfl, rfl⟩, ⟨_, rfl, by decide, by decide⟩, ⟨_, rfl, by decide⟩, ⟨_, rfl, by decide⟩,
    ⟨_, rfl, by decide, by decide⟩⟩

/-- C10, amended: for every call of `oauth` that returns, every parameter
supplied by the body, and every parameter supplied by the query string that is
the first of its name and whose name the body does not supply, takes part with
its value in the canonical parameter string that is signed, provided its name
is neither one of the six protocol names nor `__proto__`; and such a parameter
is emitted in the returned header exactly when its key starts with `oauth_`. -/
theorem oauth_header_filtering (rt : Runtime) (fns : OAuthFunctions) (w : World)
    (url method : String) (auth : Credential) (body : Body) (u : URLObject) (b : Obj)
    (hu : rt.newURL url = some u) (hb : bodyObject rt body = .ok b) (hwf : b.WellFormed) :
    ∃ (params : Obj) (baseString : String) (emitted : List String),
      parameters rt fns w url auth body = .ok params ∧
      parameterString url auth params = join "&" (signedPairs params) ∧
      signatureBaseString rt url method (parameterString url auth params) = .ok baseString ∧
      oauth rt fns w url method auth body
        = .ok ("OAuth " ++ join ", " (emitted.map fun key =>
            key ++ "=\"" ++
              encode (toStr ((params.set "oauth_signature"
                (.str (hmacSha1Signature rt baseString (createSigningKey auth)))).get key))
              ++ "\"")) ∧
      ∀ (k : String) (v : Val), k ∉ protocolNames → k ≠ "__proto__" →
        ((k ∈ b.keys ∧ b.get k = some v) ∨
          (k ∉ b.keys ∧ ∃ pre s post, u.searchParams = pre ++ (k, s) :: post ∧
            k ∉ pre.map Prod.fst ∧ v = .str s)) →
        k ++ "=" ++ encode (toStr (some v)) ∈ signedPairs params ∧
          (k ∈ emitted ↔ startsWith k "oauth_" = true) := by
  have ho := oauth_eq_ok rt fns w url method auth body hu hb
  rw [header_eq] at ho
  refine ⟨_, _, _, parameters_eq_ok rt fns w url auth body hu hb,
    parameterString_eq_map _ _ _, signatureBaseString_eq_ok rt url method _ hu, ho, ?_⟩
  intro k v hk hp h
  have hget := get_collected fns w auth u.searchParams b hwf hk hp h
  have hmem : k ∈ (setProtocol fns w auth ((queryParams u.searchParams).assign b)).keys := by
    by_contra hn
    rw [(Obj.get_eq_none _ _).2 hn] at hget
    exact Option.noConfusion hget
  refine ⟨List.mem_map.2 ⟨k, mem_sort.2 hmem, by rw [hget]⟩, ?_⟩
  rw [List.mem_filter, mem_sort, Obj.mem_keys_set]
  exact ⟨fun h' => h'.2, fun h' => ⟨Or.inr hmem, h'⟩⟩

/-- C10 on the sample of the specification: with the body `status=hello`, the
parameter `status=hello` is one of the pairs of the signed parameter string
and `status` is not in the header. -/
theorem oauth_header_filtering_witness :
    sampleRuntime.newURL "https://api.example.com/1/statuses/update.json?a=1&a=2&b=3"
        = some sampleURL ∧
      bodyObject sampleRuntime (.string "status=hello") = .ok ⟨[("status", .str "hello")]⟩ ∧
      (Obj.mk [("status", .str "hello")]).WellFormed ∧
      ∃ (params : Obj) (emitted : List String),
        parameters sampleRuntime sampleFns sampleWorld
          "https://api.example.com/1/statuses/update.json?a=1&a=2&b=3" sampleAuth
          (.string "status=hello") = .ok params ∧
        "status=hello" ∈ signedPairs params ∧
        (∃ signature, oauth sampleRuntime sampleFns sampleWorld
          "https://api.example.com/1/statuses/update.json?a=1&a=2&b=3" "post" sampleAuth
          (.string "status=hello")
          = .ok ("OAuth " ++ join ", " (emitted.map fun key =>
              key ++ "=\"" ++
                encode (toStr ((params.set "oauth_signature" (.str signature)).get key))
                ++ "\""))) ∧
        "status" ∉ emitted :=
  ⟨rfl, rfl, by decide,
    match oauth_header_filtering sampleRuntime sampleFns sampleWorld
      "https://api.example.com/1/statuses/update.json?a=1&a=2&b=3" "post" sampleAuth
      (.string "status=hello") sampleURL ⟨[("status", .str "hello")]⟩ rfl rfl (by decide) with
    | ⟨params, _, emitted, h1, _, _, h4, h5⟩ =>
      ⟨params, emitted, h1,
        (h5 "status" (.str "hello") (by decide) (by decide)
          (Or.inl ⟨by decide, by decide⟩)).1,
        ⟨_, h4⟩,
        fun hm => absurd ((h5 "status" (.str "hello") (by decide) (by decide)
          (Or.inl ⟨by decide, by decide⟩)).2.1 hm) (by decide)⟩⟩

/-- C11: for a URL that parses, `signatureBaseString` returns
`UPPERCASE(method) & encode(baseURL) & encode(paramString)` with `baseURL` the
origin followed by the path; the query and the fragment play no part, so any
other URL with the same origin and path, and any method with the same
uppercase form, give the same base string. -/
theorem signatureBaseString_spec (rt : Runtime) (url method paramString : String)
    (u : URLObject) (hu : rt.newURL url = some u) :
    signatureBaseString rt url method paramString
        = .ok (rt.toUpperCase method ++ "&" ++ encode (u.origin ++ u.pathname) ++ "&" ++
            encode paramString) ∧
      ∀ (url' method' : String) (u' : URLObject), rt.newURL url' = some u' →
        u'.origin = u.origin → u'.pathname = u.pathname →
        rt.toUpperCase method' = rt.toUpperCase method →
        signatureBaseString rt url' method' paramString
          = signatureBaseString rt url method paramString := by
  refine ⟨signatureBaseString_eq_ok rt url method paramString hu, ?_⟩
  intro url' method' u' hu' ho hp hm
  rw [signatureBaseString_eq_ok rt url method paramString hu,
    signatureBaseString_eq_ok rt url' method' paramString hu', ho, hp, hm]

/-- C11 on `https://api.example.com/1/statuses/update.json`, with and without
the query `?a=1&a=2&b=3`, and the methods `post` and `POST`. -/
theorem signatureBaseString_spec_witness :
    sampleRuntime.newURL "https://api.example.com/1/statuses/update.json?a=1&a=2&b=3"
        = some sampleURL ∧
      signatureBaseString sampleRuntime
          "https://api.example.com/1/statuses/update.json?a=1&a=2&b=3" "post" "a=1&b=2"
        = .ok "POST&https%3A%2F%2Fapi.example.com%2F1%2Fstatuses%2Fupdate.json&a%3D1%26b%3D2" ∧
      signatureBaseString sampleRuntime
          "https://api.example.com/1/statuses/update.json" "POST" "a=1&b=2"
        = signatureBaseString sampleRuntime
          "https://api.example.com/1/statuses/update.json?a=1&a=2&b=3" "post" "a=1&b=2" :=
  ⟨rfl, rfl,
    (signatureBaseString_spec sampleRuntime
      "https://api.example.com/1/statuses/update.json?a=1&a=2&b=3" "post" "a=1&b=2"
      sampleURL rfl).2 "https://api.example.com/1/statuses/update.json" "POST"
      { sampleURL with search := "", searchParams := [] } rfl rfl rfl (by decide)⟩

/-- C12: `createSigningKey` returns `encode(consumer_secret) & encode(token_secret)`;
with an empty token secret the key ends in `&` with nothing after it, with both
secrets empty it is exactly `&`, and `oauth` with such a credential returns a
header on every input it accepts. -/
theorem createSigningKey_spec (rt : Runtime) (fns : OAuthFunctions) (w : World)
    (url method : String) (auth : Credential) (body : Body) (u : URLObject) (b : Obj)
    (hu : rt.newURL url = some u) (hb : bodyObject rt body = .ok b) :
    createSigningKey auth = encode auth.consumer_secret ++ "&" ++ encode auth.token_secret ∧
      createSigningKey { auth with token_secret := "" } = encode auth.consumer_secret ++ "&" ∧
      createSigningKey { auth with consumer_secret := "", token_secret := "" } = "&" ∧
      (∃ h, oauth rt fns w url method ({ auth with token_secret := "" } : Credential) body
        = .ok h) ∧
      ∃ h, oauth rt fns w url method
        ({ auth with consumer_secret := "", token_secret := "" } : Credential) body
        = .ok h := by
  have h0 : encode "" = "" := by decide
  refine ⟨rfl, ?_, ?_, ⟨_, oauth_eq_ok rt fns w url method _ body hu hb⟩,
    ⟨_, oauth_eq_ok rt fns w url method _ body hu hb⟩⟩
  · simp only [createSigningKey, h0, String.append_empty]
  · simp only [createSigningKey, h0, String.append_empty]
    rfl

/-- C12 on the consumer secret `cs` with an empty token secret: the key is `cs&`. -/
theorem createSigningKey_spec_witness :
    sampleRuntime.newURL "https://api.example.com/1/statuses/update.json?a=1&a=2&b=3"
        = some sampleURL ∧
      bodyObject sampleRuntime .undefined = .ok Obj.empty ∧
      createSigningKey { sampleAuth with token_secret := "" } = "cs&" ∧
      ∃ h, oauth sampleRuntime sampleFns sampleWorld
        "https://api.example.com/1/statuses/update.json?a=1&a=2&b=3" "post"
        ({ sampleAuth with consumer_secret := "", token_secret := "" } : Credential)
        .undefined = .ok h :=
  ⟨rfl, rfl, by decide,
    (createSigningKey_spec sampleRuntime sampleFns sampleWorld
      "https://api.example.com/1/statuses/update.json?a=1&a=2&b=3" "post" sampleAuth
      .undefined sampleURL Obj.empty rfl rfl).2.2.2.2⟩

/-- C13, as stated, fails, in three ways: with a URL that does not parse,
`parameters` fails with a `TypeError` (the one `new URL` throws) although the
body is a flat mapping; with a credential that is `undefined` it fails with a
`TypeError` (reading `auth.consumer_key`, line 52) although the body is a flat
mapping; and with a body that is a mapping but not flat, `{a: {b: "1"}}`, it
does not fail. -/
theorem parameters_typeError_with_mapping_body :
    (sampleRuntime.newURL "not a url" = none ∧
      parameters sampleRuntime sampleFns sampleWorld "not a url" sampleAuth
        (.object ⟨[("status", .str "hello")]⟩) = .error (.typeError "Invalid URL")) ∧
    parameters sampleRuntime sampleFns sampleWorld
        "https://api.example.com/1/statuses/update.json?a=1&a=2&b=3" Auth.undefined
        (.object ⟨[("status", .str "hello")]⟩)
      = .error (.typeError "Cannot read properties of undefined (reading 'consumer_key')") ∧
    ∃ p, parameters sampleRuntime sampleFns sampleWorld
        "https://api.example.com/1/statuses/update.json?a=1&a=2&b=3" sampleAuth
        (.object ⟨[("a", .object [("b", "1")])]⟩) = .ok p ∧
      p.get "a" = some (.object [("b", "1")]) :=
  ⟨⟨rfl, rfl⟩, rfl, _, rfl, by decide⟩

/-- C13, amended: `parameters` fails, always with a `TypeError`, exactly when
the URL does not parse, or the body is neither omitted nor a string nor an
object of class `[object Object]`, or the credential is `undefined` or `null`.
For a URL that parses, every body of another shape (`null`, a boolean, a
number, an array, a function) is rejected with the message
`OAuth: body parameters must be string or object`; with a credential object,
an omitted body counts as the empty mapping, a string body is parsed as a form
and an object body is used as it is, flat or not. -/
theorem parameters_fails_iff (rt : Runtime) (fns : OAuthFunctions) (w : World)
    (url : String) (auth : Auth) (body : Body) :
    ((∃ e, parameters rt fns w url auth body = .error e) ↔
        rt.newURL url = none ∨ body.isStringOrObject = false ∨
          auth = .undefined ∨ auth = .null) ∧
      (∀ e, parameters rt fns w url auth body = .error e → ∃ message, e = .typeError message) ∧
      (∀ u, rt.newURL url = some u → body.isStringOrObject = false →
        parameters rt fns w url auth body
          = .error (.typeError "OAuth: body parameters must be string or object")) ∧
      ∀ u (credential : Credential), rt.newURL url = some u →
        parameters rt fns w url (.object credential) .undefined
            = .ok (setProtocol fns w credential
                ((queryParams u.searchParams).assign Obj.empty)) ∧
          (∀ str, parameters rt fns w url (.object credential) (.string str)
            = .ok (setProtocol fns w credential
                ((queryParams u.searchParams).assign (rt.qsParse str)))) ∧
          ∀ o, parameters rt fns w url (.object credential) (.object o)
            = .ok (setProtocol fns w credential ((queryParams u.searchParams).assign o)) := by
  refine ⟨?_, ?_, ?_, ?_⟩
  · cases hu : rt.newURL url <;> cases body <;> cases auth <;>
      simp [parameters, hu, bodyObject, Body.typeOf, Body.classOf, Body.isStringOrObject]
  · intro e
    cases hu : rt.newURL url <;> cases body <;> cases auth <;>
      simp [parameters, hu, bodyObject, Body.typeOf, Body.classOf] <;>
      rintro rfl <;> exact ⟨_, rfl⟩
  · intro u hu
    cases body <;>
      simp [parameters, hu, bodyObject, Body.typeOf, Body.classOf, Body.isStringOrObject]
  · intro u credential hu
    refine ⟨?_, ?_, ?_⟩
    · simp [parameters, hu, bodyObject, Body.typeOf, Body.classOf]
    · intro str; simp [parameters, hu, bodyObject, Body.typeOf, Body.classOf]
    · intro o; simp [parameters, hu, bodyObject, Body.typeOf, Body.classOf]

/-- C14: `setNonceFn` and `setTimestampFn` throw exactly when the argument is
not a function; a call that throws leaves both providers as they were, a call
that returns has made the argument its own provider and left the other one as
it was. -/
theorem setters_spec (fns : OAuthFunctions) (fn : Arg) :
    (((∃ e, (setNonceFn fns fn).1 = .error e) ↔ ∀ f, fn ≠ .function f) ∧
      ((∃ e, (setNonceFn fns fn).1 = .error e) → (setNonceFn fns fn).2 = fns) ∧
      ∀ f, fn = .function f →
        (setNonceFn fns fn).1 = .ok () ∧ (setNonceFn fns fn).2.nonceFn = f ∧
          (setNonceFn fns fn).2.timestampFn = fns.timestampFn) ∧
    (((∃ e, (setTimestampFn fns fn).1 = .error e) ↔ ∀ f, fn ≠ .function f) ∧
      ((∃ e, (setTimestampFn fns fn).1 = .error e) → (setTimestampFn fns fn).2 = fns) ∧
      ∀ f, fn = .function f →
        (setTimestampFn fns fn).1 = .ok () ∧ (setTimestampFn fns fn).2.timestampFn = f ∧
          (setTimestampFn fns fn).2.nonceFn = fns.nonceFn) := by
  cases fn with
  | function g =>
    refine ⟨⟨?_, ?_, ?_⟩, ⟨?_, ?_, ?_⟩⟩ <;> simp [setNonceFn, setTimestampFn]
  | notFunction =>
    refine ⟨⟨?_, ?_, ?_⟩, ⟨?_, ?_, ?_⟩⟩ <;> simp [setNonceFn, setTimestampFn]

/-- C15: determinism. With providers that return constants, a second call of
`oauth` with the same URL, method, credential and body, made in the state the
first call left and at any later state of the clock and the random source,
returns what the first call returned; and a call leaves the module state, both
providers, as it found it. -/
theorem oauth_deterministic (rt : Runtime) (fns : OAuthFunctions) (w₁ w₂ : World)
    (url method : String) (auth : Credential) (body : Body)
    (hn : ∀ w w', fns.nonceFn w = fns.nonceFn w')
    (ht : ∀ w w', fns.timestampFn w = fns.timestampFn w') :
    (oauthCall rt w₂ url method auth body (oauthCall rt w₁ url method auth body fns).2).1
        = (oauthCall rt w₁ url method auth body fns).1 ∧
      (oauthCall rt w₁ url method auth body fns).2 = fns ∧
      (oauthCall rt w₂ url method auth body (oauthCall rt w₁ url method auth body fns).2).2
        = fns :=
  ⟨oauth_of_constant rt fns w₂ w₁ url method auth body (hn _ _) (ht _ _), rfl, rfl⟩

/-- C15 on the constant providers of the sample, at two states of the clock. -/
theorem oauth_deterministic_witness :
    (∀ w w', sampleFns.nonceFn w = sampleFns.nonceFn w') ∧
      (∀ w w', sampleFns.timestampFn w = sampleFns.timestampFn w') ∧
      (oauthCall sampleRuntime ⟨1318622999000, [7]⟩
          "https://api.example.com/1/statuses/update.json?a=1&a=2&b=3" "post" sampleAuth
          (.string "status=hello")
          (oauthCall sampleRuntime sampleWorld
            "https://api.example.com/1/statuses/update.json?a=1&a=2&b=3" "post" sampleAuth
            (.string "status=hello") sampleFns).2).1
        = (oauthCall sampleRuntime sampleWorld
          "https://api.example.com/1/statuses/update.json?a=1&a=2&b=3" "post" sampleAuth
          (.string "status=hello") sampleFns).1 :=
  ⟨fun _ _ => rfl, fun _ _ => rfl,
    (oauth_deterministic sampleRuntime sampleFns sampleWorld ⟨1318622999000, [7]⟩
      "https://api.example.com/1/statuses/update.json?a=1&a=2&b=3" "post" sampleAuth
      (.string "status=hello") (fun _ _ => rfl) (fun _ _ => rfl)).1⟩

/-- C16: header formatting is idempotent: a second call of `header` with the
same signature, on the parameter set the first call left, returns the same
string and leaves the same parameter set. -/
theorem header_idempotent (url : String) (auth : Credential) (signature : String)
    (params : Obj) :
    (header url auth signature (header url auth signature params).2).1
        = (header url auth signature params).1 ∧
      (header url auth signature (header url auth signature params).2).2
        = (header url auth signature params).2 := by
  have h : header url auth signature (header url auth signature params).2
      = header url auth signature params := by
    rw [header_eq, header_eq]
    simp only [set_set_self]
  exact ⟨congrArg Prod.fst h, congrArg Prod.snd h⟩

/-- C17, as stated, fails: keys are emitted as they are, so with the parameter
set `{'oauth_a="x", oauth_signature': "evil"}` (a key a query string can
supply) and the signature `REALSIG` the returned header reads
`OAuth oauth_a="x", oauth_signature="evil", oauth_signature="REALSIG"`: two
`oauth_signature` entries, the first with a value that is not the signature.
A key with a comma alone (`oauth_a, oauth_signature`) or with `=` alone
(`oauth_signature=x`) does the same. -/
theorem header_two_signature_entries :
    (header "" sampleAuth "REALSIG" ⟨[("oauth_a=\"x\", oauth_signature", .str "evil")]⟩).1
        = "OAuth oauth_a=\"x\", oauth_signature=\"evil\", oauth_signature=\"REALSIG\"" ∧
      (headerEntries
          (header "" sampleAuth "REALSIG"
            ⟨[("oauth_a=\"x\", oauth_signature", .str "evil")]⟩).1).filter
          (fun entry => decide (entry.1 = "oauth_signature"))
        = [("oauth_signature", "\"evil\""), ("oauth_signature", "\"REALSIG\"")] ∧
      (header "" sampleAuth "REALSIG" ⟨[("oauth_a, oauth_signature", .str "evil")]⟩).1
        = "OAuth oauth_a, oauth_signature=\"evil\", oauth_signature=\"REALSIG\"" ∧
      (headerEntries
          (header "" sampleAuth "REALSIG"
            ⟨[("oauth_a, oauth_signature", .str "evil")]⟩).1).filter
          (fun entry => decide (entry.1 = "oauth_signature"))
        = [("oauth_signature", "\"evil\""), ("oauth_signature", "\"REALSIG\"")] ∧
      (header "" sampleAuth "REALSIG" ⟨[("oauth_signature=x", .str "evil")]⟩).1
        = "OAuth oauth_signature=\"REALSIG\", oauth_signature=x=\"evil\"" ∧
      (headerEntries
          (header "" sampleAuth "REALSIG" ⟨[("oauth_signature=x", .str "evil")]⟩).1).filter
          (fun entry => decide (entry.1 = "oauth_signature"))
        = [("oauth_signature", "\"REALSIG\""), ("oauth_signature", "x=\"evil\"")] := by
  decide

/-- C17, amended: when no key of the parameter set that starts with `oauth_`
contains `,` or `=`, the header, read back entry by entry, has exactly one
`oauth_signature` entry; its value is `encode(signature)` of the signature
passed in, whatever the parameter set held under `oauth_signature` before;
every other key of the parameter set keeps its value. -/
theorem header_signature_entry (url : String) (auth : Credential) (signature : String)
    (params : Obj) (h : params.WellFormed)
    (hk : ∀ k ∈ params.keys, startsWith k "oauth_" = true → ',' ∉ k.data ∧ '=' ∉ k.data) :
    (headerEntries (header url auth signature params).1).filter
          (fun entry => decide (entry.1 = "oauth_signature"))
        = [("oauth_signature", "\"" ++ encode signature ++ "\"")] ∧
      (header url auth signature params).2.get "oauth_signature" = some (.str signature) ∧
      (∀ k, k ≠ "oauth_signature" →
        (header url auth signature params).2.get k = params.get k) ∧
      ∃ emitted : List String, emitted.Nodup ∧
        (∀ k, k ∈ emitted ↔
          k ∈ (header url auth signature params).2.keys ∧ startsWith k "oauth_" = true) ∧
        headerEntries (header url auth signature params).1
          = emitted.map fun key =>
              (key, "\"" ++
                encode (toStr ((header url auth signature params).2.get key)) ++ "\"") := by
  have hnd : ((sort (params.set "oauth_signature" (.str signature)).keys).filter
      fun key => startsWith key "oauth_").Nodup :=
    List.Nodup.filter _ (sort_nodup (Obj.wellFormed_set h _ _))
  have hmem : ∀ k, k ∈ (sort (params.set "oauth_signature" (.str signature)).keys).filter
      (fun key => startsWith key "oauth_")
      ↔ k ∈ (params.set "oauth_signature" (.str signature)).keys ∧
        startsWith k "oauth_" = true := fun k => by
    rw [List.mem_filter, mem_sort]
  have hent := headerEntries_of_plain url auth signature params hk
  refine ⟨?_, ?_, ?_, _, hnd, ?_, ?_⟩
  · rw [hent, List.filter_map]
    have hf : ((fun entry : String × String => decide (entry.1 = "oauth_signature")) ∘
        fun key => (key, "\"" ++
          encode (toStr ((params.set "oauth_signature" (.str signature)).get key)) ++ "\""))
        = fun key => decide (key = "oauth_signature") := rfl
    rw [hf, filter_eq_singleton hnd ((hmem _).2 ⟨(Obj.mem_keys_set _ _ _ _).2 (Or.inl rfl),
      by decide⟩), List.map_singleton, Obj.get_set_self]
    rfl
  · rw [header_eq]
    exact Obj.get_set_self _ _ _
  · intro k hk'
    rw [header_eq]
    exact Obj.get_set_ne _ _ hk'
  · intro k
    rw [header_eq]
    exact hmem k
  · rw [hent, header_eq]

/-- C17 on a parameter set that already holds `oauth_signature: "old"`: the
header carries the new signature `a b`, encoded, once. -/
theorem header_signature_entry_witness :
    (Obj.mk [("oauth_signature", .str "old"), ("oauth_token", .str "tk"),
        ("status", .str "hello")]).WellFormed ∧
      (∀ k ∈ (Obj.mk [("oauth_signature", .str "old"), ("oauth_token", .str "tk"),
          ("status", .str "hello")]).keys,
        startsWith k "oauth_" = true → ',' ∉ k.data ∧ '=' ∉ k.data) ∧
      header "" sampleAuth "a b"
          ⟨[("oauth_signature", .str "old"), ("oauth_token", .str "tk"),
            ("status", .str "hello")]⟩
        = ("OAuth oauth_signature=\"a%20b\", oauth_token=\"tk\"",
          ⟨[("oauth_signature", .str "a b"), ("oauth_token", .str "tk"),
            ("status", .str "hello")]⟩) ∧
      (headerEntries (header "" sampleAuth "a b"
          ⟨[("oauth_signature", .str "old"), ("oauth_token", .str "tk"),
            ("status", .str "hello")]⟩).1).filter
          (fun entry => decide (entry.1 = "oauth_signature"))
        = [("oauth_signature", "\"" ++ encode "a b" ++ "\"")] :=
  ⟨by decide, by decide, by decide,
    (header_signature_entry "" sampleAuth "a b"
      ⟨[("oauth_signature", .str "old"), ("oauth_token", .str "tk"),
        ("status", .str "hello")]⟩ (by decide) (by decide)).1⟩

/-- C18: percent-decoding undoes `encode` (every `%HH` back to its octet, the
octets read as UTF-8, gives the string back), so `encode` is injective: two
different strings never have the same encoding. -/
theorem encode_roundtrip :
    (∀ s : String, decode (encode s) = some s) ∧ Function.Injective encode :=
  ⟨decode_encode, fun _ _ h => encode_injective h⟩

/-- C19: on parameter sets whose keys contain neither `&` nor `=` and whose
values are strings, `parameterString` is injective: two parameter sets that
differ in content (some key holds a value in one that it does not hold in the
other) give different canonical strings. -/
theorem parameterString_injective (url : String) (auth : Credential) (p q : Obj)
    (hp : p.plainKeys) (hq : q.plainKeys) (vp : p.stringValues) (vq : q.stringValues)
    (hdiff : ∃ k, p.get k ≠ q.get k) :
    parameterString url auth p ≠ parameterString url auth q := by
  intro h
  obtain ⟨k, hk⟩ := hdiff
  exact hk (get_eq_of_parameterString_eq url url auth auth p q hp hq vp vq h k)

/-- C19 on `{a: "1", b: "x&y"}` and `{a: "1", b: "x", y: ""}`: the strings
`a=1&b=x%26y` and `a=1&b=x&y=` differ. -/
theorem parameterString_injective_witness :
    (Obj.mk [("a", .str "1"), ("b", .str "x&y")]).plainKeys ∧
      (Obj.mk [("a", .str "1"), ("b", .str "x"), ("y", .str "")]).plainKeys ∧
      (Obj.mk [("a", .str "1"), ("b", .str "x&y")]).stringValues ∧
      (Obj.mk [("a", .str "1"), ("b", .str "x"), ("y", .str "")]).stringValues ∧
      parameterString "" sampleAuth ⟨[("a", .str "1"), ("b", .str "x&y")]⟩ = "a=1&b=x%26y" ∧
      parameterString "" sampleAuth ⟨[("a", .str "1"), ("b", .str "x"), ("y", .str "")]⟩
        = "a=1&b=x&y=" ∧
      parameterString "" sampleAuth ⟨[("a", .str "1"), ("b", .str "x&y")]⟩
        ≠ parameterString "" sampleAuth ⟨[("a", .str "1"), ("b", .str "x"), ("y", .str "")]⟩ :=
  have hp : (Obj.mk [("a", .str "1"), ("b", .str "x&y")]).plainKeys := by
    intro k hk
    simp only [Obj.keys, List.map_cons, List.map_nil, List.mem_cons, List.mem_singleton,
      List.not_mem_nil, or_false] at hk
    rcases hk with rfl | rfl <;> decide
  have hq : (Obj.mk [("a", .str "1"), ("b", .str "x"), ("y", .str "")]).plainKeys := by
    intro k hk
    simp only [Obj.keys, List.map_cons, List.map_nil, List.mem_cons, List.mem_singleton,
      List.not_mem_nil, or_false] at hk
    rcases hk with rfl | rfl | rfl <;> decide
  have vp : (Obj.mk [("a", .str "1"), ("b", .str "x&y")]).stringValues := by
    intro e he
    simp only [List.mem_cons, List.mem_singleton, List.not_mem_nil, or_false] at he
    rcases he with rfl | rfl <;> exact ⟨_, rfl⟩
  have vq : (Obj.mk [("a", .str "1"), ("b", .str "x"), ("y", .str "")]).stringValues := by
    intro e he
    simp only [List.mem_cons, List.mem_singleton, List.not_mem_nil, or_false] at he
    rcases he with rfl | rfl | rfl <;> exact ⟨_, rfl⟩
  ⟨hp, hq, vp, vq, by decide, by decide,
    parameterString_injective "" sampleAuth _ _ hp hq vp vq ⟨"b", by decide⟩⟩

end OAuth
